import Mathlib

set_option maxHeartbeats 1000000

/-!
Verification development for the Dashbord repository (marketing-analytics
dashboard): a shallow embedding of the server-side fetch/flatten/repair
pipeline (`src/Server/index.js`) and of the client-side normalization,
aggregation and distribution pipeline (`src/Web/src/App.jsx`), together
with theorems settling the specification claims about them.

Modelling conventions:
* JavaScript numbers are modelled as exact rationals plus explicit `NaN`
  and `±Infinity` markers (`JNum`); floating-point rounding and overflow
  are outside the model.
* JavaScript objects are insertion-ordered association lists
  (`Obj := List (String × JVal)`); `Object.entries` iterates them in
  order, property read takes the first matching key and property write
  replaces in place (appending when the key is absent), matching the
  semantics of JavaScript objects, whose keys are unique.
* `Number(...)` string coercion is modelled for (signed) decimal literals
  with optional fraction and exponent and for `Infinity`; hex/octal/binary
  literals are not modelled.  `toString` on non-integer numbers, arrays
  and nested objects is modelled with placeholder text; no claim exercises
  those cases.
* `Number(...)` applied to arrays/objects (ToPrimitive) is modelled as
  `NaN`; no claim exercises that case.
-/

/-- JavaScript number: a finite rational, `NaN`, or a signed infinity. -/
inductive JNum where
  | val (q : ℚ)
  | nan
  | inf
  | ninf
deriving DecidableEq, Repr

namespace JNum
/-- JavaScript `+` on numbers (overflow to infinity not modelled). -/
def add : JNum → JNum → JNum
  | val a, val b => val (a + b)
  | nan, _ => nan
  | _, nan => nan
  | inf, ninf => nan
  | ninf, inf => nan
  | inf, _ => inf
  | _, inf => inf
  | ninf, _ => ninf
  | _, ninf => ninf

/-- JavaScript `*` on numbers. -/
def mul : JNum → JNum → JNum
  | val a, val b => val (a * b)
  | nan, _ => nan
  | _, nan => nan
  | inf, val b => if b = 0 then nan else if 0 < b then inf else ninf
  | val a, inf => if a = 0 then nan else if 0 < a then inf else ninf
  | ninf, val b => if b = 0 then nan else if 0 < b then ninf else inf
  | val a, ninf => if a = 0 then nan else if 0 < a then ninf else inf
  | inf, inf => inf
  | ninf, ninf => inf
  | inf, ninf => ninf
  | ninf, inf => ninf

/-- JavaScript `/` on numbers (the sign of zero is not modelled: finite
dividends of either sign over zero give the infinity of the dividend's
sign, `0/0` gives `NaN`). -/
def div : JNum → JNum → JNum
  | val a, val b =>
      if b = 0 then (if a = 0 then nan else if 0 < a then inf else ninf)
      else val (a / b)
  | nan, _ => nan
  | _, nan => nan
  | inf, inf => nan
  | inf, ninf => nan
  | ninf, inf => nan
  | ninf, ninf => nan
  | inf, val b => if 0 ≤ b then inf else ninf
  | ninf, val b => if 0 ≤ b then ninf else inf
  | val _, inf => val 0
  | val _, ninf => val 0

/-- JavaScript `>` against a rational literal (`NaN` compares false). -/
def gtQ : JNum → ℚ → Bool
  | val a, b => decide (b < a)
  | nan, _ => false
  | inf, _ => true
  | ninf, _ => false

/-- JavaScript `<` against a rational literal (`NaN` compares false). -/
def ltQ : JNum → ℚ → Bool
  | val a, b => decide (a < b)
  | nan, _ => false
  | inf, _ => false
  | ninf, _ => true

/-- `Number.isFinite`. -/
def isFinite : JNum → Bool
  | val _ => true
  | _ => false

/-- `Number.isNaN`. -/
def isNaN : JNum → Bool
  | nan => true
  | _ => false

end JNum
/-- JavaScript value: number, string, boolean, `null`, `undefined`, array
or object.  Objects are insertion-ordered association lists. -/
inductive JVal where
  | num (n : JNum)
  | str (s : String)
  | bool (b : Bool)
  | null
  | undef
  | arr (elems : List JVal)
  | obj (fields : List (String × JVal))

/-- An object's field list: the representation of one JavaScript object. -/
abbrev Obj := List (String × JVal)

namespace JVal
/-- Structural decidable equality for `JVal` (used only in statements and
`decide`; JavaScript semantic comparisons are modelled separately). -/
def beq : JVal → JVal → Bool
  | num a, num b => a == b
  | str a, str b => a == b
  | bool a, bool b => a == b
  | null, null => true
  | undef, undef => true
  | arr a, arr b => beqList a b
  | obj a, obj b => beqFields a b
  | _, _ => false
where
  /-- Element-wise equality on arrays. -/
  beqList : List JVal → List JVal → Bool
    | [], [] => true
    | x :: xs, y :: ys => beq x y && beqList xs ys
    | _, _ => false
  /-- Field-wise equality on objects. -/
  beqFields : List (String × JVal) → List (String × JVal) → Bool
    | [], [] => true
    | (k, v) :: xs, (k', v') :: ys => k == k' && beq v v' && beqFields xs ys
    | _, _ => false

instance : BEq JVal := ⟨beq⟩

/-- JavaScript truthiness. -/
def truthy : JVal → Bool
  | num (.val q) => decide (q ≠ 0)
  | num .nan => false
  | num .inf => true
  | num .ninf => true
  | str s => decide (s ≠ "")
  | bool b => b
  | null => false
  | undef => false
  | arr _ => true
  | obj _ => true

/-- JavaScript `a ?? b` (nullish coalescing). -/
def nullish (a b : JVal) : JVal :=
  match a with
  | null => b
  | undef => b
  | _ => a

/-- JavaScript `a || b`. -/
def orElse (a b : JVal) : JVal :=
  if truthy a then a else b

end JVal
namespace Obj
/-- First binding of `k`, if any (JavaScript object keys are unique, so
this is the binding of `k`). -/
def get : Obj → String → Option JVal
  | [], _ => none
  | (k', v) :: rest, k => if k' = k then some v else get rest k

/-- Property write: replace the binding of `k` in place, appending a new
binding when `k` is absent (JavaScript assignment semantics). -/
def set : Obj → String → JVal → Obj
  | [], k, v => [(k, v)]
  | (k', v') :: rest, k, v =>
      if k' = k then (k, v) :: rest else (k', v') :: set rest k v

/-- `Object.prototype.hasOwnProperty`. -/
def hasOwn (o : Obj) (k : String) : Bool :=
  match o.get k with
  | some _ => true
  | none => false

/-- Property read as JavaScript sees it: `undefined` when absent. -/
def getJ (o : Obj) (k : String) : JVal :=
  (o.get k).getD .undef

end Obj
/-- Property read on an arbitrary value: object fields are looked up, any
other receiver yields `undefined` (reads on `null`/`undefined` throw in
JavaScript; no modelled code path reads a property of those without a
guard or optional chaining). -/
def JVal.getF : JVal → String → JVal
  | .obj fields, k => Obj.getJ fields k
  | _, _ => (.undef)

/-- JavaScript whitespace recognised by `trim` and `Number` (the common
ASCII subset). -/
def isJsWs (c : Char) : Bool :=
  c = ' ' ∨ c = '\t' ∨ c = '\n' ∨ c = '\r'

/-- `String.prototype.trim` (ASCII whitespace). -/
def jsTrim (s : String) : String :=
  ⟨(s.data.dropWhile isJsWs).reverse.dropWhile isJsWs |>.reverse⟩

/-- ASCII letter, digit or underscore. -/
def isWordChar (c : Char) : Bool :=
  c.isAlpha ∨ c.isDigit ∨ c = '_'

namespace JsParse
/-- Greedily read a digit run, returning its value, its length and the
rest. -/
def digits : List Char → Nat → Nat → (Nat × Nat × List Char)
  | c :: cs, acc, len =>
      if c.isDigit then digits cs (acc * 10 + (c.toNat - '0'.toNat)) (len + 1)
      else (acc, len, c :: cs)
  | [], acc, len => (acc, len, [])

/-- Parse an optional exponent part `e`/`E` with optional sign; returns
`none` if an exponent marker is present but malformed. -/
def expPart : List Char → Option ℤ
  | [] => some 0
  | c :: cs =>
      if c = 'e' ∨ c = 'E' then
        match cs with
        | '+' :: cs' =>
            let (e, len, rest) := digits cs' 0 0
            if len = 0 ∨ rest ≠ [] then none else some (Int.ofNat e)
        | '-' :: cs' =>
            let (e, len, rest) := digits cs' 0 0
            if len = 0 ∨ rest ≠ [] then none else some (-(Int.ofNat e))
        | _ =>
            let (e, len, rest) := digits cs 0 0
            if len = 0 ∨ rest ≠ [] then none else some (Int.ofNat e)
      else none

/-- Ten to a natural power, by explicit recursion (kept free of the
power typeclass so that closed instances reduce). -/
def pow10Q : Nat → ℚ
  | 0 => 1
  | n + 1 => 10 * pow10Q n

/-- Scale a rational by a power of ten. -/
def scalePow10 (q : ℚ) (e : ℤ) : ℚ :=
  match e with
  | .ofNat n => q * pow10Q n
  | .negSucc n => q / pow10Q (n + 1)

/-- Parse an unsigned decimal literal `digits [. digits] [exp]` or
`. digits [exp]`. -/
def unsignedDec (cs : List Char) : Option ℚ :=
  let (ip, ilen, rest) := digits cs 0 0
  match rest with
  | '.' :: rest' =>
      let (fp, flen, rest'') := digits rest' 0 0
      if ilen = 0 ∧ flen = 0 then none
      else
        match expPart rest'' with
        | none => none
        | some e =>
            some (scalePow10 ((Int.ofNat ip : ℚ) + (Int.ofNat fp : ℚ) / pow10Q flen) e)
  | _ =>
      if ilen = 0 then none
      else
        match expPart rest with
        | none => none
        | some e => some (scalePow10 (Int.ofNat ip : ℚ) e)

/-- `Number(string)` after trimming: empty → `0`, signed `Infinity`,
signed decimal literal, otherwise `NaN` (hex/octal/binary not modelled). -/
def numOfTrimmed (s : String) : JNum :=
  if s = "" then .val 0
  else if s = "Infinity" ∨ s = "+Infinity" then .inf
  else if s = "-Infinity" then .ninf
  else
    match s.data with
    | '+' :: cs => match unsignedDec cs with
        | some q => .val q
        | none => .nan
    | '-' :: cs => match unsignedDec cs with
        | some q => .val (-q)
        | none => .nan
    | cs => match unsignedDec cs with
        | some q => .val q
        | none => .nan

end JsParse
/-- Decimal rendering of a rational whose denominator is 1; placeholder
for other rationals (no claim renders a non-integer number). -/
def numToString (q : ℚ) : String :=
  if q.den = 1 then toString q.num else "[nonIntegerNumber]"

/-- JavaScript `String(v)` / template-literal coercion.  Arrays and
nested objects are given placeholder renderings (ToPrimitive/join not
modelled; no claim exercises those cases). -/
def jsToString : JVal → String
  | .num (.val q) => numToString q
  | .num .nan => "NaN"
  | .num .inf => "Infinity"
  | .num .ninf => "-Infinity"
  | .str s => s
  | .bool true => "true"
  | .bool false => "false"
  | .null => "null"
  | .undef => "undefined"
  | .arr _ => "[arrayToString]"
  | .obj _ => "[object Object]"

/-- JavaScript `Number(v)` coercion. -/
def jsNumber : JVal → JNum
  | .num n => n
  | .str s => JsParse.numOfTrimmed (jsTrim s)
  | .bool true => .val 1
  | .bool false => .val 0
  | .null => .val 0
  | .undef => .nan
  | .arr _ => .nan
  | .obj _ => .nan

/-! ### String disagreement helper

Used to show that generated keys (a fixed text followed by arbitrary
text) can never collide with certain other keys. -/

/-- `true` when two strings differ at some index inside their common
prefix length, so that no pair of extensions can make them equal. -/
def stringsClash (p q : String) : Bool :=
  (List.range (min p.data.length q.data.length)).any
    (fun i => p.data.get? i ≠ q.data.get? i)

/-! ### Server (`src/Server/index.js`) -/

namespace Server
/-- `ALWAYS_INCLUDE_FIELDS` from `src/Server/index.js`. -/
def ALWAYS_INCLUDE_FIELDS : List String :=
  ["actions", "action_values", "purchase_roas", "outbound_clicks",
   "outbound_clicks_ctr", "campaign_name", "campaign_id", "account_name",
   "account_id"]

/-- `toNumber` from `src/Server/index.js`: `null`/`undefined`/`""` give
`NaN`, everything else goes through `Number(...)`. -/
def toNumber : JVal → JNum
  | .null => .nan
  | .undef => .nan
  | .str "" => .nan
  | v => jsNumber v

/-- The scalar-copying pass of `flattenInsight`: every top-level field
whose value is not `null`/`undefined`, not an array and not an object is
copied verbatim. -/
def scalarPass (o : Obj) : Obj :=
  o.foldl
    (fun out kv =>
      match kv.2 with
      | .null => out
      | .undef => out
      | .arr _ => out
      | .obj _ => out
      | v => out.set kv.1 v)
    []

/-- One entry step of an action-array expansion block of
`flattenInsight`: a falsy entry or a falsy `action_type` is skipped,
otherwise `pre_{action_type} = toNumber(entry.value)` is written. -/
def expandStep (pre : String) (acc : Obj) (a : JVal) : Obj :=
  if ¬ a.truthy then acc
  else if ¬ (a.getF "action_type").truthy then acc
  else
    acc.set (pre ++ "_" ++ jsToString (a.getF "action_type"))
      (.num (toNumber (a.getF "value")))

/-- One action-array expansion block of `flattenInsight`. -/
def expandActionArray (out : Obj) (v : JVal) (pre : String) : Obj :=
  match v with
  | .arr xs => xs.foldl (expandStep pre) out
  | _ => out

/-- The `outbound_clicks`/`outbound_clicks_ctr` total blocks of
`flattenInsight`: when the source field is an array, sum
`toNumber(entry.value)` over its entries. -/
def sumValues (v : JVal) : Option JNum :=
  match v with
  | .arr xs =>
      some (xs.foldl (fun t x => t.add (toNumber (x.getF "value"))) (.val 0))
  | _ => none

/-- Write a `_total` summary key when the source field is an array
(otherwise leave the output untouched). -/
def setTotal (out : Obj) (v : JVal) (name : String) : Obj :=
  match sumValues v with
  | some t => out.set name (.num t)
  | none => out

/-- `flattenInsight` from `src/Server/index.js`. -/
def flattenInsight (o : Obj) : Obj :=
  let out := scalarPass o
  let out := expandActionArray out (o.getJ "actions") "actions"
  let out := expandActionArray out (o.getJ "action_values") "action_values"
  let out := expandActionArray out (o.getJ "purchase_roas") "purchase_roas"
  let out := setTotal out (o.getJ "outbound_clicks") "outbound_clicks_total"
  setTotal out (o.getJ "outbound_clicks_ctr") "outbound_clicks_ctr_total"

/-- `addDerived` from `src/Server/index.js`. -/
def addDerived (row : Obj) (resultActionType : String) : Obj :=
  let spend := toNumber (row.getJ "spend")
  let results := toNumber (row.getJ ("actions_" ++ resultActionType))
  let row := if results.isNaN then row else row.set "results" (.num results)
  let row :=
    if ¬ spend.isNaN ∧ results.gtQ 0 then
      row.set "cost_per_result" (.num (spend.div results))
    else row
  let imp := toNumber (row.getJ "impressions")
  if imp.gtQ 0 ∧ results.gtQ 0 then
    row.set "result_rate" (.num (results.div imp))
  else row

/-- One HTTP attempt of `metaFetch`, as seen from the code: a response
(any status — `validateStatus: () => true` never throws on status) with
its `status`, `statusText` and parsed body `res.data`, or a transport
exception thrown by `axios.get` itself. -/
inductive HttpAttempt where
  | response (status : Nat) (statusText : String) (body : JVal)
  | netErr (msg : String)

/-- An error propagating out of `metaFetch`: either the transport
exception, or the `metaError` object built from a non-2xx response
(carrying `status`, the formatted `message`, the `meta` error payload and
the raw response body). -/
inductive MFError where
  | network (msg : String)
  | meta (status : Nat) (message : String) (metaObj : JVal) (responseBody : JVal)

/-- The `err` object computed by `metaFetch` for a non-2xx response:
`res.data && res.data.error ? res.data.error : {message: res.statusText,
code: res.status}`. -/
def errOfResponse (status : Nat) (statusText : String) (body : JVal) : JVal :=
  if body.truthy ∧ (body.getF "error").truthy then body.getF "error"
  else .obj [("message", .str statusText), ("code", .num (.val status))]

/-- The `metaError` thrown by `metaFetch` for a terminal non-2xx
response. -/
def mkMetaError (status : Nat) (statusText : String) (body : JVal) : MFError :=
  let err := errOfResponse status statusText body
  let message :=
    if (err.getF "message").truthy then jsToString (err.getF "message")
    else if statusText ≠ "" then statusText else "Unknown error"
  .meta status ("Meta API error [" ++ toString status ++ "]: " ++ message)
    err body

/-- `metaFetch` from `src/Server/index.js`, with the network abstracted
as an oracle from request index (how many requests have been issued so
far) to outcome; backoff sleeps are elided.  Returns the overall result
together with the next request index, i.e. the total number of HTTP
requests issued.  Note the thrown `metaError` is raised inside the `try`
block, so the bottom `catch` applies to it exactly as to transport
exceptions. -/
def metaFetch (oracle : Nat → HttpAttempt) (reqIdx attempt : Nat) :
    (Except MFError JVal) × Nat :=
  let tryRes : (Except MFError JVal) × Nat :=
    match oracle reqIdx with
    | .netErr m => (.error (.network m), reqIdx + 1)
    | .response status statusText body =>
        if 200 ≤ status ∧ status < 300 then (.ok body, reqIdx + 1)
        else
          let err := errOfResponse status statusText body
          if _hrl : (status = 429 ∨ (err.truthy ∧ err.getF "code" == JVal.num (.val 4)))
              ∧ attempt ≤ 6 then
            metaFetch oracle (reqIdx + 1) (attempt + 1)
          else
            (.error (mkMetaError status statusText body), reqIdx + 1)
  match tryRes with
  | (.ok d, idx) => (.ok d, idx)
  | (.error e, idx) =>
      if _hc : attempt ≤ 3 then metaFetch oracle idx (attempt + 1)
      else (.error e, idx)
termination_by 7 - attempt
decreasing_by
  · omega
  · omega

/-! #### `extractInvalidInsightFields`

The two regular expressions of `extractInvalidInsightFields` are modelled
as specialised matchers with JavaScript `match` semantics (leftmost match
wins; the list pattern's capture is lazy, the single pattern's capture is
greedy; both literals are matched case-insensitively). -/

/-- Case-insensitive ASCII character comparison. -/
def ciEq (a b : Char) : Bool := a.toLower = b.toLower

/-- Consume a literal case-insensitively; returns the remainder. -/
def ciLit : List Char → List Char → Option (List Char)
  | [], rest => some rest
  | _ :: _, [] => none
  | l :: ls, r :: rs => if ciEq l r then ciLit ls rs else none

/-- Consume a literal case-sensitively; returns the remainder. -/
def csLit : List Char → List Char → Option (List Char)
  | [], rest => some rest
  | _ :: _, [] => none
  | l :: ls, r :: rs => if l = r then csLit ls rs else none

/-- Match `\s+` followed by a case-insensitive literal (the literals here
start with a non-whitespace character, so the greedy whitespace run never
needs backtracking); returns the remainder. -/
def wsThenLit (lit cs : List Char) : Option (List Char) :=
  match cs with
  | c :: cs' => if isJsWs c then ciLit lit (cs'.dropWhile (isJsWs ·)) else none
  | [] => none

/-- Literal tail of the list pattern
`([^:]+?)\s+are not valid for fields param`. -/
def LIST_LIT : List Char := "are not valid for fields param".data

/-- Literal tail of the single pattern
`(is|was)\s+not valid for fields param`. -/
def SINGLE_LIT : List Char := "not valid for fields param".data

/-- The lazy capture `([^:]+?)` of the list pattern: the shortest
non-empty colon-free prefix whose remainder matches
`\s+are not valid for fields param`. -/
def lazyCapture (acc : List Char) (cs : List Char) : Option (List Char) :=
  if acc ≠ [] ∧ (wsThenLit LIST_LIT cs).isSome then some acc
  else
    match cs with
    | [] => none
    | c :: rest => if c = ':' then none else lazyCapture (acc ++ [c]) rest

/-- The optional greedy group `(?:\(#\d+\)\s*)?` of the list pattern;
returns the remainder when the group matches. -/
def hashGroup (cs : List Char) : Option (List Char) :=
  match cs with
  | '(' :: '#' :: rest =>
      let (_, len, rest') := JsParse.digits rest 0 0
      if len = 0 then none
      else
        match rest' with
        | ')' :: rest'' => some (rest''.dropWhile (isJsWs ·))
        | _ => none
  | _ => none

/-- Try the list pattern at one position: the optional `(#digits)` group
is tried first (greedy), falling back to matching without it. -/
def tryListAt (cs : List Char) : Option (List Char) :=
  match hashGroup cs with
  | some cs' =>
      match lazyCapture [] cs' with
      | some cap => some cap
      | none => lazyCapture [] cs
  | none => lazyCapture [] cs

/-- Leftmost match of the list pattern
`(?:\(#\d+\)\s*)?([^:]+?)\s+are not valid for fields param`; returns the
capture. -/
def listSearch : List Char → Option (List Char)
  | [] => none
  | c :: rest =>
      match tryListAt (c :: rest) with
      | some cap => some cap
      | none => listSearch rest

/-- Quote characters of `['"]`. -/
def isQuote (c : Char) : Bool := c = '\'' ∨ c = '"'

/-- Greedy maximal `[A-Za-z0-9_]+` run: the run and the remainder. -/
def wordRun (cs : List Char) : List Char × List Char :=
  (cs.takeWhile (isWordChar ·), cs.dropWhile (isWordChar ·))

/-- Try the single pattern
`['"]?([A-Za-z0-9_]+)['"]?\s+(?:is|was)\s+not valid for fields param` at
one position; returns the capture.  (Shrinking the greedy word run can
never help: its boundary character would still be a word character where
whitespace or a quote is required, so no backtracking into the capture is
modelled.) -/
def trySingleAt (cs : List Char) : Option (List Char) :=
  let cs1 :=
    match cs with
    | c :: rest => if isQuote c then rest else c :: rest
    | [] => []
  let (run, rest) := wordRun cs1
  if run = [] then none
  else
    let rest1 :=
      match rest with
      | c :: r => if isQuote c then r else c :: r
      | [] => []
    match rest1 with
    | c :: r =>
        if isJsWs c then
          let r' := r.dropWhile (isJsWs ·)
          match ciLit ['i', 's'] r' with
          | some r2 =>
              match wsThenLit SINGLE_LIT r2 with
              | some _ => some run
              | none =>
                  match ciLit ['w', 'a', 's'] r' with
                  | some r3 =>
                      match wsThenLit SINGLE_LIT r3 with
                      | some _ => some run
                      | none => none
                  | none => none
          | none =>
              match ciLit ['w', 'a', 's'] r' with
              | some r3 =>
                  match wsThenLit SINGLE_LIT r3 with
                  | some _ => some run
                  | none => none
              | none => none
        else none
    | [] => none

/-- Leftmost match of the single pattern; returns the capture. -/
def singleSearch : List Char → Option (List Char)
  | [] => none
  | c :: rest =>
      match trySingleAt (c :: rest) with
      | some cap => some cap
      | none => singleSearch rest

/-- `raw.replace(/^Meta API error \[\d+\]:\s*/, "")`. -/
def stripMetaErrorHead (s : String) : List Char :=
  match csLit "Meta API error [".data s.data with
  | some rest =>
      let (_, len, rest') := JsParse.digits rest 0 0
      if len = 0 then s.data
      else
        match rest' with
        | ']' :: ':' :: rest'' => rest''.dropWhile (isJsWs ·)
        | _ => s.data
  | none => s.data

/-- `segment.trim()` on a character list. -/
def trimChars (cs : List Char) : List Char :=
  ((cs.dropWhile (isJsWs ·)).reverse.dropWhile (isJsWs ·)).reverse

/-- `replace(/^['"]|['"]$/g, "")`: one leading and one trailing quote
character removed. -/
def stripQuotes (cs : List Char) : List Char :=
  let cs1 :=
    match cs with
    | c :: rest => if isQuote c then rest else c :: rest
    | [] => []
  match cs1.reverse with
  | c :: rest => if isQuote c then rest.reverse else cs1
  | [] => []

/-- `String.prototype.split(",")`. -/
def splitComma (cs : List Char) : List (List Char) :=
  go cs []
where
  /-- Accumulate the current segment (reversed) until a comma. -/
  go : List Char → List Char → List (List Char)
    | [], acc => [acc.reverse]
    | c :: rest, acc =>
        if c = ',' then acc.reverse :: go rest [] else go rest (c :: acc)

/-- `/^[A-Za-z0-9_]+$/.test`. -/
def wordOnly (cs : List Char) : Bool :=
  decide (cs ≠ []) && cs.all (isWordChar ·)

/-- `Set.add` with JavaScript `Set` insertion-order semantics on a
list. -/
def pushUnique (l : List String) (s : String) : List String :=
  if s ∈ l then l else l ++ [s]

/-- Process one message string of `extractInvalidInsightFields`:
normalise away the `Meta API error [...]:` head, collect the list-pattern
capture's comma segments (trimmed, unquoted, identifier-checked), then
the single-pattern capture. -/
def extractFromMessage (seen : List String) (raw : String) : List String :=
  let cs := stripMetaErrorHead raw
  let seen :=
    match listSearch cs with
    | some cap =>
        (splitComma cap).foldl
          (fun acc seg =>
            let t := stripQuotes (trimChars seg)
            if wordOnly t then pushUnique acc ⟨t⟩ else acc)
          seen
    | none => seen
  match singleSearch cs with
  | some cap =>
      if decide (cap ≠ []) && wordOnly cap then pushUnique seen ⟨cap⟩ else seen
  | none => seen

/-- `extractInvalidInsightFields` from `src/Server/index.js`: collects the
candidate messages (`error.meta?.message`, `error.message`,
`error.response?.error?.message`, keeping only strings), skips empty
ones, and accumulates matched field names in first-seen order. -/
def extractInvalidInsightFields (e : MFError) : List String :=
  let messages :=
    match e with
    | .meta _ msg metaObj body =>
        (match metaObj.getF "message" with | .str s => [s] | _ => [])
          ++ [msg]
          ++ (match (body.getF "error").getF "message" with
              | .str s => [s] | _ => [])
    | .network msg => [msg]
  messages.foldl
    (fun seen raw => if raw = "" then seen else extractFromMessage seen raw)
    []

/-- The `level` enum of the insights body. -/
inductive Level where
  | campaign
  | adset
  | ad
deriving DecidableEq

/-- `ensureFields` from `src/Server/index.js`: requested fields plus the
always-included core set (insertion-ordered, deduplicated), plus the
identity fields of the requested level. -/
def ensureFields (fields : List String) (level : Level) : List String :=
  let wanted := (fields ++ ALWAYS_INCLUDE_FIELDS).foldl pushUnique []
  let wanted :=
    if level = .adset ∨ level = .ad then
      pushUnique (pushUnique wanted "adset_name") "adset_id"
    else wanted
  if level = .ad then pushUnique (pushUnique wanted "ad_name") "ad_id"
  else wanted

/-- The hard-coded `invalid` set filtered from the body's fields before
the repair loop. -/
def INVALID_PRESET : List String :=
  ["landing_page_views", "video_2_sec_continuous_watch_actions",
   "video_3_sec_watched_actions"]

/-- Outcome of one whole fetch attempt (all accounts, all pages) of the
`POST /api/insights` handler, abstracting the upstream. -/
inductive FetchOutcome where
  | success (rows : List Obj)
  | failure (e : MFError)

/-- Result of the `POST /api/insights` handler: a 200 payload (rows plus
the accumulated `removedFields`, included in the JSON only when
non-empty), the 400 returned when no requested fields remain, or the 400
produced by the outer catch from a non-field error. -/
inductive InsightsResult where
  | ok (rows : List Obj) (removedFields : List String)
  | badRequest (msg : String)
  | thrown (e : MFError)
deriving Inhabited

/-- The unsupported-field repair loop (`while (true)` ...) of the
`POST /api/insights` handler, with the upstream abstracted as an oracle
from round number and outgoing field list to outcome, and bounded by
explicit fuel (`none` = the loop is still running after `fuel` rounds).
Each round sends `ensureFields requested level`; on failure it extracts
the invalid field names, accumulates them into `removed`, filters them
out of `requested` only, and retries. -/
def insightsLoop (oracle : Nat → List String → FetchOutcome) (level : Level) :
    Nat → Nat → List String → List String → Option InsightsResult
  | 0, _, _, _ => none
  | fuel + 1, round, requested, removed =>
      let fields := ensureFields requested level
      match oracle round fields with
      | .success rows => some (.ok rows removed)
      | .failure e =>
          let invalid := extractInvalidInsightFields e
          if invalid = [] then some (.thrown e)
          else
            let removed' := invalid.foldl pushUnique removed
            let filtered := requested.filter (fun f => ¬ f ∈ removed')
            if filtered = [] then
              some (.badRequest
                ("No valid fields remain after removing unsupported fields: "
                  ++ String.intercalate ", " removed'))
            else insightsLoop oracle level fuel (round + 1) filtered removed'

/-- The handler's initialisation of `requestedFields`:
`Array.from(new Set(body.fields.filter(f => !invalid.has(f))))`. -/
def initialRequested (bodyFields : List String) : List String :=
  (bodyFields.filter (fun f => ¬ f ∈ INVALID_PRESET)).foldl pushUnique []

/-- The `POST /api/insights` handler's field-repair portion: the repair
loop started from the body's filtered, deduplicated field list and an
empty removed set. -/
def handleInsights (oracle : Nat → List String → FetchOutcome)
    (level : Level) (bodyFields : List String) (fuel : Nat) :
    Option InsightsResult :=
  insightsLoop oracle level fuel 0 (initialRequested bodyFields) []

end Server
/-! ### Client (`src/Web/src/App.jsx`) -/

namespace Client
/-- `safeNumber` from `src/Web/src/App.jsx`: `Number(value)` when finite,
otherwise `0`. -/
def safeNumber (v : JVal) : ℚ :=
  match jsNumber v with
  | .val q => q
  | _ => 0

/-- `isSafeMetricKey`: the test `/^[a-zA-Z_][a-zA-Z0-9_]*$/.test(key)`. -/
def isSafeMetricKey (key : String) : Bool :=
  match key.data with
  | [] => false
  | c :: rest =>
      (c.isAlpha || c = '_')
        && rest.all (fun d => d.isAlpha || d.isDigit || d = '_')

/-- `toFiniteNumber` from `src/Web/src/App.jsx`: finite numbers pass
through; strings are trimmed, rejected when empty, and parsed through
`Number(...)` keeping only finite results; everything else is `null`
(modelled `none`). -/
def toFiniteNumber (v : JVal) : Option ℚ :=
  match v with
  | .num (.val q) => some q
  | .num _ => none
  | .str s =>
      let trimmed := jsTrim s
      if trimmed = "" then none
      else
        match JsParse.numOfTrimmed trimmed with
        | .val q => some q
        | _ => none
  | _ => none

/-- The `mergeNumeric` closure of `normalizeMainRow`: keys failing the
safe-identifier test or values failing `toFiniteNumber` are ignored; a
currently-held finite number is summed with the incoming value; otherwise
the incoming value is written (it is always finite here, coming from
`toFiniteNumber`, so the source's final `Number.isFinite(numeric)` guard
always passes when reached). -/
def mergeNumeric (o : Obj) (key : String) (value : JVal) : Obj :=
  if ¬ isSafeMetricKey key then o
  else
    match toFiniteNumber value with
    | none => o
    | some q =>
        match o.get key with
        | some (.num (.val cur)) => o.set key (.num (.val (cur + q)))
        | some _ => o.set key (.num (.val q))
        | none => o.set key (.num (.val q))

/-- ASCII letters and digits, the characters kept by the sanitiser's
`[^a-z0-9]+` (with the `i` flag) replacement. -/
def isAsciiAlnum (c : Char) : Bool := c.isAlpha || c.isDigit

/-- `rawType.replace(/[^a-z0-9]+/gi, "_").toLowerCase()`: alphanumeric
runs are lowercased, every other maximal run becomes one underscore.  The
`prevRepl` flag tracks whether the previous character was part of a
replaced run. -/
def sanitizeCollapse : List Char → Bool → List Char
  | [], _ => []
  | c :: rest, prevRepl =>
      if isAsciiAlnum c then c.toLower :: sanitizeCollapse rest false
      else if prevRepl then sanitizeCollapse rest true
      else '_' :: sanitizeCollapse rest true

/-- `.replace(/^_+|_+$/g, "")`. -/
def trimUnderscores (cs : List Char) : List Char :=
  ((cs.dropWhile (· = '_')).reverse.dropWhile (· = '_')).reverse

/-- The whole sanitisation of `flattenMetricArray`'s entry type. -/
def sanitizeIdent (s : String) : String :=
  ⟨trimUnderscores (sanitizeCollapse s.data false)⟩

/-- The `rawType` of one `flattenMetricArray` entry:
`(entry.action_type || entry.name || entry.label || entry.metric ||
entry.type || "").toString()`. -/
def entryType (entry : JVal) : String :=
  jsToString
    ((((((entry.getF "action_type").orElse
            (entry.getF "name")).orElse
          (entry.getF "label")).orElse
        (entry.getF "metric")).orElse
      (entry.getF "type")).orElse (.str ""))

/-- The `numeric` of one `flattenMetricArray` entry:
`toFiniteNumber(entry.value ?? entry.metric_value ?? entry.score ??
entry.count)`. -/
def entryNumeric (entry : JVal) : Option ℚ :=
  toFiniteNumber
    ((((entry.getF "value").nullish
        (entry.getF "metric_value")).nullish
      (entry.getF "score")).nullish
      (entry.getF "count"))

/-- One entry step of the `flattenMetricArray` closure of
`normalizeMainRow`: non-object entries and entries with no resolvable
type, no numeric value or an empty sanitised type are skipped; the rest
are merged under `{prefix}_{sanitised type}`. -/
def flattenStep (pre : String) (o : Obj) (entry : JVal) : Obj :=
  match entry with
  | .obj _ | .arr _ =>
      if entryType entry = "" then o
      else
        match entryNumeric entry with
        | none => o
        | some q =>
            if sanitizeIdent (entryType entry) = "" then o
            else
              mergeNumeric o
                (if pre ≠ "" then pre ++ "_" ++ sanitizeIdent (entryType entry)
                 else sanitizeIdent (entryType entry))
                (.num (.val q))
  | _ => o

/-- The `flattenMetricArray` closure of `normalizeMainRow`. -/
def flattenMetricArray (o : Obj) (source : JVal) (pre : String) : Obj :=
  match source with
  | .arr xs => xs.foldl (flattenStep pre) o
  | _ => o

/-- The `arraySources` table of `normalizeMainRow`. -/
def arraySources : List (String × String) :=
  [("actions", "actions"),
   ("action_values", "action_values"),
   ("cost_per_action_type", "cost_per_action_type"),
   ("cost_per_unique_action_type", "cost_per_unique_action_type"),
   ("cost_per_outbound_click", "cost_per_outbound_click"),
   ("cost_per_unique_outbound_click", "cost_per_unique_outbound_click"),
   ("unique_actions", "unique_actions"),
   ("unique_conversions", "unique_conversions"),
   ("outbound_clicks", "outbound_clicks"),
   ("outbound_clicks_ctr", "outbound_clicks_ctr"),
   ("unique_outbound_clicks", "unique_outbound_clicks"),
   ("unique_outbound_clicks_ctr", "unique_outbound_clicks_ctr"),
   ("website_ctr", "website_ctr"),
   ("website_clicks", "website_clicks"),
   ("instant_experience_clicks_to_open", "instant_experience_clicks_to_open"),
   ("instant_experience_clicks_to_start", "instant_experience_clicks_to_start"),
   ("instant_experience_outbound_clicks", "instant_experience_outbound_clicks"),
   ("video_play_actions", "video_play_actions"),
   ("video_2_sec_continuous_watched_actions", "video_2_sec_continuous_watched_actions"),
   ("video_3_sec_watched_actions", "video_3_sec_watched_actions"),
   ("video_10_sec_watched_actions", "video_10_sec_watched_actions"),
   ("video_15_sec_watched_actions", "video_15_sec_watched_actions"),
   ("video_30_sec_watched_actions", "video_30_sec_watched_actions"),
   ("video_p25_watched_actions", "video_p25_watched_actions"),
   ("video_p50_watched_actions", "video_p50_watched_actions"),
   ("video_p75_watched_actions", "video_p75_watched_actions"),
   ("video_p95_watched_actions", "video_p95_watched_actions"),
   ("video_p100_watched_actions", "video_p100_watched_actions")]

/-- The derived-ratio seed of `normalizeMainRow`, before the open-field
merge (the object literal). -/
def normalizedSeed (row : Obj) : Obj :=
  let impressions := safeNumber (row.getJ "impressions")
  let clicks := safeNumber ((row.getJ "clicks").nullish (row.getJ "outbound_clicks_total"))
  let spend := safeNumber (row.getJ "spend")
  let results := safeNumber ((row.getJ "results").nullish (row.getJ "actions_purchase"))
  let valuesPurchase := safeNumber (row.getJ "action_values_purchase")
  let roasPurchase := safeNumber (row.getJ "purchase_roas_purchase")
  let name :=
    ((((row.getJ "campaign_name").orElse (row.getJ "adset_name")).orElse
        (row.getJ "ad_name")).orElse (row.getJ "account_name")).orElse
      (.str "Unnamed")
  let id :=
    (((row.getJ "campaign_id").orElse (row.getJ "adset_id")).orElse
        (row.getJ "ad_id")).orElse
      (.str (jsToString name ++ "-"
        ++ jsToString ((row.getJ "date_start").orElse (.str "")) ++ "-"
        ++ jsToString ((row.getJ "date_stop").orElse (.str ""))))
  let campaignId :=
    (((row.getJ "campaign_id").orElse (row.getJ "adset_id")).orElse
        (row.getJ "ad_id")).orElse id
  [("id", id),
   ("campaign_id", campaignId),
   ("name", name),
   ("impressions", .num (.val impressions)),
   ("clicks", .num (.val clicks)),
   ("spend", .num (.val spend)),
   ("ctr", .num (.val (if 0 < impressions then clicks / impressions else 0))),
   ("cpm", .num (.val (if 0 < impressions then spend / impressions * 1000 else 0))),
   ("cpc", .num (.val (if 0 < clicks then spend / clicks else 0))),
   ("results", .num (.val results)),
   ("cost_per_result", .num (.val (if 0 < results then spend / results else 0))),
   ("roas", .num (.val
      (if 0 < roasPurchase then roasPurchase
       else if 0 < spend ∧ 0 < valuesPurchase then valuesPurchase / spend
       else 0))),
   ("value", .num (.val valuesPurchase)),
   ("date_start", row.getJ "date_start"),
   ("date_stop", row.getJ "date_stop"),
   ("account_name", (row.getJ "account_name").orElse (.str "")),
   ("raw", .obj row)]

/-- One `Object.entries(row)` step of the open-field merge of
`normalizeMainRow`: array values are skipped, everything else goes
through `mergeNumeric`. -/
def mergeEntryStep (o : Obj) (kv : String × JVal) : Obj :=
  match kv.2 with
  | .arr _ => o
  | _ => mergeNumeric o kv.1 kv.2

/-- `normalizeMainRow` from `src/Web/src/App.jsx`: the seed object, then
the `Object.entries` open-field merge (arrays skipped), then the
`arraySources` re-flattening. -/
def normalizeMainRow (row : Obj) : Obj :=
  let merged := row.foldl mergeEntryStep (normalizedSeed row)
  arraySources.foldl
    (fun o sp => flattenMetricArray o (row.getJ sp.1) sp.2) merged

/-- JavaScript `<` between two numbers (`NaN` compares false). -/
def numLt : JNum → JNum → Bool
  | .val x, .val y => decide (x < y)
  | .nan, _ => false
  | _, .nan => false
  | .inf, _ => false
  | .ninf, .ninf => false
  | .ninf, _ => true
  | .val _, .inf => true
  | .val _, .ninf => false

/-- JavaScript `+` between two values: string concatenation when either
side is a string, numeric addition otherwise (ToPrimitive on
arrays/objects is not modelled; no claim adds those). -/
def jsAdd (a b : JVal) : JVal :=
  match a, b with
  | .str _, _ => .str (jsToString a ++ jsToString b)
  | _, .str _ => .str (jsToString a ++ jsToString b)
  | _, _ => .num ((jsNumber a).add (jsNumber b))

/-- JavaScript `<` between two values: lexicographic when both are
strings, numeric otherwise. -/
def jsLt (a b : JVal) : Bool :=
  match a, b with
  | .str x, .str y => decide (x < y)
  | _, _ => numLt (jsNumber a) (jsNumber b)

/-- JavaScript `a > b`, i.e. `b < a` with the same coercions. -/
def jsGt (a b : JVal) : Bool := jsLt b a

/-- The `skipKeys` set of `aggregateByCampaign`. -/
def skipKeys : List String :=
  ["id", "campaign_id", "name", "account_name", "date_start", "date_stop",
   "raw", "impressions", "clicks", "spend", "results", "value", "ctr",
   "cpm", "cpc", "cost_per_result", "roas"]

/-- The grouping key of `aggregateByCampaign`:
`row.campaign_id || row.id || row.raw?.campaign_id || row.name`. -/
def aggKey (row : Obj) : JVal :=
  (((row.getJ "campaign_id").orElse (row.getJ "id")).orElse
      ((row.getJ "raw").getF "campaign_id")).orElse (row.getJ "name")

/-- `Map` key sameness (SameValueZero): value equality on primitives
(`NaN` matches `NaN`); distinct arrays/objects are distinct references,
hence never the same key in this model. -/
def svz (a b : JVal) : Bool :=
  match a, b with
  | .num x, .num y => x == y
  | .str x, .str y => x == y
  | .bool x, .bool y => x == y
  | .null, .null => true
  | .undef, .undef => true
  | _, _ => false

/-- The group seed `{...row, impressions: row.impressions, ...}` of
`aggregateByCampaign` (`value` defaulted through `|| 0`). -/
def aggInitial (row : Obj) : Obj :=
  let e := row
  let e := e.set "impressions" (row.getJ "impressions")
  let e := e.set "clicks" (row.getJ "clicks")
  let e := e.set "spend" (row.getJ "spend")
  let e := e.set "results" (row.getJ "results")
  let e := e.set "value" ((row.getJ "value").orElse (.num (.val 0)))
  let e := e.set "date_start" (row.getJ "date_start")
  let e := e.set "date_stop" (row.getJ "date_stop")
  e

/-- One `Object.entries(row)` step of the group merge: keys in `skipKeys`
and non-finite-number values are skipped, any other entry is added into
the group via `(existing[key] || 0) + value`. -/
def aggEntriesStep (acc : Obj) (kv : String × JVal) : Obj :=
  if kv.1 ∈ skipKeys then acc
  else
    match kv.2 with
    | .num (.val q) =>
        acc.set kv.1
          (jsAdd ((acc.getJ kv.1).orElse (.num (.val 0))) (.num (.val q)))
    | _ => acc

/-- Merging one row into an existing group of `aggregateByCampaign`: the
five core fields are added, every other finite-number field of the row is
added into the group (`(existing[key] || 0) + value`), and the date range
widens. -/
def aggMerge (existing row : Obj) : Obj :=
  let e := existing.set "impressions"
    (jsAdd (existing.getJ "impressions") (row.getJ "impressions"))
  let e := e.set "clicks" (jsAdd (e.getJ "clicks") (row.getJ "clicks"))
  let e := e.set "spend" (jsAdd (e.getJ "spend") (row.getJ "spend"))
  let e := e.set "results" (jsAdd (e.getJ "results") (row.getJ "results"))
  let e := e.set "value"
    (jsAdd (e.getJ "value") ((row.getJ "value").orElse (.num (.val 0))))
  let e := row.foldl aggEntriesStep e
  let e :=
    if (row.getJ "date_start").truthy
        ∧ (¬ (e.getJ "date_start").truthy
            ∨ jsLt (row.getJ "date_start") (e.getJ "date_start")) then
      e.set "date_start" (row.getJ "date_start")
    else e
  if (row.getJ "date_stop").truthy
      ∧ (¬ (e.getJ "date_stop").truthy
          ∨ jsGt (row.getJ "date_stop") (e.getJ "date_stop")) then
    e.set "date_stop" (row.getJ "date_stop")
  else e

/-- First group bound to a key under SameValueZero. -/
def lookupSvz : List (JVal × Obj) → JVal → Option Obj
  | [], _ => none
  | (k, v) :: rest, id => if svz k id then some v else lookupSvz rest id

/-- Merge a row into the group bound to a key, in place. -/
def mergeSvz : List (JVal × Obj) → JVal → Obj → List (JVal × Obj)
  | [], _, _ => []
  | (k, v) :: rest, id, row =>
      if svz k id then (k, aggMerge v row) :: rest
      else (k, v) :: mergeSvz rest id row

/-- One `rows.forEach` step of `aggregateByCampaign`. -/
def aggStep (groups : List (JVal × Obj)) (row : Obj) : List (JVal × Obj) :=
  let id := aggKey row
  if ¬ id.truthy then groups
  else
    match lookupSvz groups id with
    | some _ => mergeSvz groups id row
    | none => groups ++ [(id, aggInitial row)]

/-- The final ratio recomputation `{...row, ctr: ..., cpm: ..., cpc: ...,
cost_per_result: ..., roas: ...}` of `aggregateByCampaign`. -/
def aggFinalize (row : Obj) : Obj :=
  let imp := jsNumber (row.getJ "impressions")
  let clk := jsNumber (row.getJ "clicks")
  let sp := jsNumber (row.getJ "spend")
  let res := jsNumber (row.getJ "results")
  let vl := jsNumber (row.getJ "value")
  let e := row.set "ctr"
    (if imp.gtQ 0 then .num (clk.div imp) else .num (.val 0))
  let e := e.set "cpm"
    (if imp.gtQ 0 then .num ((sp.div imp).mul (.val 1000)) else .num (.val 0))
  let e := e.set "cpc"
    (if clk.gtQ 0 then .num (sp.div clk) else .num (.val 0))
  let e := e.set "cost_per_result"
    (if res.gtQ 0 then .num (sp.div res) else .num (.val 0))
  e.set "roas"
    (if vl.gtQ 0 ∧ sp.gtQ 0 then .num (vl.div sp)
     else (row.getJ "roas").orElse (.num (.val 0)))

/-- `aggregateByCampaign` from `src/Web/src/App.jsx`. -/
def aggregateByCampaign (rows : List Obj) : List Obj :=
  (rows.foldl aggStep []).map (fun kv => aggFinalize kv.2)

/-- Per-bucket totals accumulated by `buildDistribution`. -/
structure BdStats where
  spend : ℚ
  value : ℚ
  results : ℚ
  clicks : ℚ
  impressions : ℚ
  amount : ℚ
deriving DecidableEq, Repr

/-- One output entry of `buildDistribution`. -/
structure DistEntry where
  name : String
  amount : ℚ
  percent : ℚ
  spend : ℚ
  impressions : ℚ
  clicks : ℚ
  results : ℚ
  color : String
deriving DecidableEq, Repr

/-- The `colorPalette` table. -/
def colorPalette : List String :=
  ["#4f46e5", "#22c55e", "#a855f7", "#06b6d4", "#f97316", "#facc15",
   "#f472b6", "#8b5cf6"]

/-- The per-row amount ladder of `buildDistribution`: spend, falling back
through value, results, clicks, impressions while the current amount is
non-positive and the candidate is positive. -/
def rowAmount (spend value results clicks impressions : ℚ) : ℚ :=
  let amount := spend
  let amount := if amount ≤ 0 ∧ 0 < value then value else amount
  let amount := if amount ≤ 0 ∧ 0 < results then results else amount
  let amount := if amount ≤ 0 ∧ 0 < clicks then clicks else amount
  if amount ≤ 0 ∧ 0 < impressions then impressions else amount

/-- The bucket label: `bucketRaw ? bucketRaw.toString() : "Unknown"`. -/
def bdBucket (row : Obj) (key : String) : String :=
  let b := row.getJ key
  if b.truthy then jsToString b else "Unknown"

/-- First stats bound to a bucket label. -/
def lookupBd : List (String × BdStats) → String → Option BdStats
  | [], _ => none
  | (k, v) :: rest, b => if k = b then some v else lookupBd rest b

/-- `Map.set` with insertion-order semantics on the bucket list. -/
def setBd : List (String × BdStats) → String → BdStats → List (String × BdStats)
  | [], b, s => [(b, s)]
  | (k, v) :: rest, b, s =>
      if k = b then (b, s) :: rest else (k, v) :: setBd rest b s

/-- One `rows.forEach` step of `buildDistribution`. -/
def bdStep (key : String) (totals : List (String × BdStats)) (row : Obj) :
    List (String × BdStats) :=
  let bucket := bdBucket row key
  let spend := safeNumber (row.getJ "spend")
  let value := safeNumber (row.getJ "value")
  let results := safeNumber (row.getJ "results")
  let clicks := safeNumber (row.getJ "clicks")
  let impressions := safeNumber (row.getJ "impressions")
  let amount := rowAmount spend value results clicks impressions
  let entry := (lookupBd totals bucket).getD ⟨0, 0, 0, 0, 0, 0⟩
  setBd totals bucket
    ⟨entry.spend + spend, entry.value + value, entry.results + results,
     entry.clicks + clicks, entry.impressions + impressions,
     entry.amount + amount⟩

/-- The fallback amount
`entry.spend || entry.value || entry.results || entry.clicks ||
entry.impressions` (first non-zero, else the impressions value). -/
def fallbackAmount (s : BdStats) : ℚ :=
  if s.spend ≠ 0 then s.spend
  else if s.value ≠ 0 then s.value
  else if s.results ≠ 0 then s.results
  else if s.clicks ≠ 0 then s.clicks
  else s.impressions

/-- Stable descending insertion by `amount` (the comparator
`(a, b) => b.stats.amount - a.stats.amount` under a stable sort). -/
def bdInsert (x : String × BdStats) :
    List (String × BdStats) → List (String × BdStats)
  | [] => [x]
  | y :: ys =>
      if y.2.amount < x.2.amount then x :: y :: ys else y :: bdInsert x ys

/-- Stable descending sort by `amount`. -/
def bdSort (l : List (String × BdStats)) : List (String × BdStats) :=
  l.foldl (fun acc x => bdInsert x acc) []

/-- The final entry construction of `buildDistribution` (index used for
the colour palette). -/
def mkEntries (grandTotal : ℚ) : Nat → List (String × BdStats) → List DistEntry
  | _, [] => []
  | i, (name, stats) :: rest =>
      { name := name
        amount := stats.amount
        percent := if 0 < grandTotal then stats.amount / grandTotal * 100 else 0
        spend := stats.spend
        impressions := stats.impressions
        clicks := stats.clicks
        results := stats.results
        color := colorPalette.getD (i % colorPalette.length) "" }
        :: mkEntries grandTotal (i + 1) rest

/-- `buildDistribution` from `src/Web/src/App.jsx`. -/
def buildDistribution (rows : List Obj) (key : String) : List DistEntry :=
  let totals := rows.foldl (bdStep key) []
  let grandTotal : ℚ := (totals.map (fun kv => kv.2.amount)).sum
  let pair : List (String × BdStats) × ℚ :=
    if grandTotal ≤ 0 then
      let totals' :=
        totals.map (fun kv => (kv.1, { kv.2 with amount := fallbackAmount kv.2 }))
      (totals', (totals'.map (fun kv => kv.2.amount)).sum)
    else (totals, grandTotal)
  mkEntries pair.2 0 (bdSort pair.1)

end Client
/-! ### Concrete scenario inputs used by the claim theorems -/

/-- A non-2xx response body with an upstream error payload (status 400,
code 10: neither a 429 nor a throttling code 4). -/
def c1Payload : JVal :=
  .obj [("error", .obj [("message", .str "Insufficient permission"),
                        ("code", .num (.val 10))])]

/-- An upstream that answers every request with the same HTTP 400. -/
def c1Oracle : Nat → Server.HttpAttempt :=
  fun _ => .response 400 "Bad Request" c1Payload

/-- The upstream error rejecting the always-included field
`account_id`. -/
def c2Error : Server.MFError :=
  .meta 400
    "Meta API error [400]: (#100) account_id are not valid for fields param"
    (.obj [("message",
            .str "(#100) account_id are not valid for fields param"),
           ("code", .num (.val 100))])
    (.obj [("error",
            .obj [("message",
                   .str "(#100) account_id are not valid for fields param")])])

/-- An upstream that rejects any request whose field list contains
`account_id` and succeeds otherwise. -/
def c2Oracle : Nat → List String → Server.FetchOutcome :=
  fun _ fields =>
    if "account_id" ∈ fields then .failure c2Error else .success []

/-- The upstream error of the spec's repair example. -/
def c6Error : Server.MFError :=
  .meta 400
    "Meta API error [400]: (#100) field1, field2 are not valid for fields param"
    (.obj [("message",
            .str "(#100) field1, field2 are not valid for fields param"),
           ("code", .num (.val 100))])
    .null

/-- An upstream that rejects any request still asking for `field1` or
`field2` and succeeds otherwise. -/
def c6Oracle : Nat → List String → Server.FetchOutcome :=
  fun _ fields =>
    if "field1" ∈ fields ∨ "field2" ∈ fields then .failure c6Error
    else .success []

/-- First NormalizedRow of the aggregation example: spend 10, clicks 2,
impressions 100 (per-row ctr 0.02). -/
def c4Row1 : Obj :=
  [("id", .str "c1"), ("campaign_id", .str "c1"),
   ("name", .str "Campaign One"),
   ("impressions", .num (.val 100)), ("clicks", .num (.val 2)),
   ("spend", .num (.val 10)), ("results", .num (.val 0)),
   ("value", .num (.val 0)), ("ctr", .num (.val (2 / 100))),
   ("roas", .num (.val 0))]

/-- Second NormalizedRow of the aggregation example: spend 20, clicks 3,
impressions 100 (per-row ctr 0.03). -/
def c4Row2 : Obj :=
  [("id", .str "c1"), ("campaign_id", .str "c1"),
   ("name", .str "Campaign One"),
   ("impressions", .num (.val 100)), ("clicks", .num (.val 3)),
   ("spend", .num (.val 20)), ("results", .num (.val 0)),
   ("value", .num (.val 0)), ("ctr", .num (.val (3 / 100))),
   ("roas", .num (.val 0))]

/-- A FlatRow with zero impressions that itself carries a numeric `ctr`
field. -/
def c5Row : Obj := [("impressions", .num (.val 0)), ("ctr", .num (.val 7))]

/-- A FlatRow used to witness the zero-denominator behaviour. -/
def c5WitnessRow : Obj :=
  [("impressions", .num (.val 0)), ("clicks", .num (.val 0)),
   ("spend", .num (.val 5)), ("results", .num (.val 0))]

/-- A row carrying a numeric `roas` field of its own. -/
def c7Row : Obj := [("roas", .num (.val 5))]

/-- A row exercising the `roas` precedence: upstream ROAS 2.5 wins over
the derived 30/10. -/
def c7WitnessRow : Obj :=
  [("purchase_roas_purchase", .str "2.5"), ("spend", .num (.val 10)),
   ("action_values_purchase", .num (.val 30))]

/-- A breakdown row whose only volume is a negative spend. -/
def c8Row : Obj := [("platform", .str "fb"), ("spend", .num (.val (-5)))]

/-- Breakdown rows with all-zero spend/value/results/clicks but non-zero
impressions. -/
def c8WitnessRows : List Obj :=
  [[("platform", .str "fb"), ("impressions", .num (.val 5))],
   [("platform", .str "ig"), ("impressions", .num (.val 15))]]

/-- A raw insight whose `actions` array has two entries with the same
`action_type`. -/
def c9Row : Obj :=
  [("actions",
    .arr [.obj [("action_type", .str "purchase"), ("value", .str "4")],
          .obj [("action_type", .str "purchase"), ("value", .str "5")]])]

/-- The `actions` array of the spec's flattening example plus an entry
without an `action_type`, an entry with a non-numeric value, and
`action_values` / `purchase_roas` arrays. -/
def c9WitnessRow : Obj :=
  [("actions",
    .arr [.obj [("action_type", .str "purchase"), ("value", .str "4")],
          .obj [("value", .str "9")],
          .obj [("action_type", .str "lead"), ("value", .str "x")]]),
   ("action_values",
    .arr [.obj [("action_type", .str "purchase"), ("value", .str "7")]]),
   ("purchase_roas",
    .arr [.obj [("action_type", .str "purchase"), ("value", .str "2")]])]

/-- A value is an array. -/
def isArr : JVal → Bool
  | .arr _ => true
  | _ => false

namespace Client
/-- The amount contributed by one row of `buildDistribution` (the ladder
applied to the row's coerced fields). -/
def rowAmountOf (row : Obj) : ℚ :=
  rowAmount (safeNumber (row.getJ "spend")) (safeNumber (row.getJ "value"))
    (safeNumber (row.getJ "results")) (safeNumber (row.getJ "clicks"))
    (safeNumber (row.getJ "impressions"))

end Client

/-! ## Theorems -/

namespace Obj
@[simp] theorem get_nil (k : String) : get [] k = none := rfl

theorem get_set_self (o : Obj) (k : String) (v : JVal) :
    get (set o k v) k = some v := by
  induction o with
  | nil => simp [get, set]
  | cons p rest ih =>
      obtain ⟨k', v'⟩ := p
      by_cases h : k' = k <;> simp [get, set, h, ih]

theorem get_set_ne (o : Obj) (k t : String) (v : JVal) (h : k ≠ t) :
    get (set o k v) t = get o t := by
  induction o with
  | nil => simp [get, set, h]
  | cons p rest ih =>
      obtain ⟨k', v'⟩ := p
      by_cases hk : k' = k
      · subst hk
        simp [get, set, h]
      · have h' : t ≠ k := fun hh => h hh.symm
        by_cases ht : k' = t <;> simp [get, set, hk, ht, ih, h']

end Obj
theorem append_ne_of_clash (p q s u : String) (h : stringsClash p q = true) :
    p ++ s ≠ q ++ u := by
  intro heq
  have hd : p.data ++ s.data = q.data ++ u.data := by
    have := congrArg String.data heq
    simpa using this
  rcases List.any_eq_true.mp h with ⟨i, hi, hne⟩
  rw [List.mem_range] at hi
  have h1 : (p.data ++ s.data)[i]? = p.data[i]? :=
    List.getElem?_append_left (by omega)
  have h2 : (q.data ++ u.data)[i]? = q.data[i]? :=
    List.getElem?_append_left (by omega)
  rw [hd, h2] at h1
  simp [List.get?_eq_getElem?] at hne
  exact hne h1.symm

/-! ## Helper lemmas -/

theorem foldl_preserves {β α : Type} (P : β → Prop) (f : β → α → β)
    (hf : ∀ b a, P b → P (f b a)) :
    ∀ (l : List α) (b : β), P b → P (l.foldl f b)
  | [], _, hb => hb
  | a :: l, b, hb => foldl_preserves P f hf l (f b a) (hf b a hb)

theorem foldl_fix {β α γ : Type} (g : β → γ) (f : β → α → β) :
    ∀ (l : List α), (∀ b a, a ∈ l → g (f b a) = g b) →
      ∀ b, g (l.foldl f b) = g b
  | [], _, _ => rfl
  | a :: l, hf, b => by
      have h1 := hf b a (List.mem_cons_self a l)
      have h2 := foldl_fix g f l (fun b' a' ha' => hf b' a' (List.mem_cons_of_mem a ha')) (f b a)
      simpa [h1] using h2

theorem Obj.get_set (o : Obj) (k t : String) (v : JVal) :
    Obj.get (Obj.set o k v) t = if k = t then some v else Obj.get o t := by
  by_cases h : k = t
  · subst h
    simp [Obj.get_set_self]
  · simp [h, Obj.get_set_ne o k t v h]

theorem strAppend_data (a b : String) : (a ++ b).data = a.data ++ b.data := by
  simp

theorem append_ne_single (p t s : String) (h : stringsClash p t = true) :
    p ++ s ≠ t := by
  intro heq
  apply append_ne_of_clash p t s "" h
  rw [heq]
  apply congrArg String.mk
  simp

theorem strAppend_assoc (a b c : String) : a ++ b ++ c = a ++ (b ++ c) := by
  apply congrArg String.mk
  simp [List.append_assoc]

namespace Client
theorem mergeNumeric_get_ne (o : Obj) (k t : String) (v : JVal) (h : k ≠ t) :
    Obj.get (mergeNumeric o k v) t = Obj.get o t := by
  unfold mergeNumeric
  split
  · rfl
  · cases htf : toFiniteNumber v with
    | none => rfl
    | some q =>
        simp only
        split <;> simp [Obj.get_set, h]

theorem mergeNumeric_skip (o : Obj) (k : String) (v : JVal)
    (h : toFiniteNumber v = none) : mergeNumeric o k v = o := by
  unfold mergeNumeric
  split
  · rfl
  · simp [h]

theorem mergeNumeric_finiteAt (o : Obj) (k t : String) (v : JVal)
    (h : ∃ q : ℚ, Obj.get o t = some (.num (.val q))) :
    ∃ q : ℚ, Obj.get (mergeNumeric o k v) t = some (.num (.val q)) := by
  by_cases hkt : k = t
  · subst hkt
    rcases h with ⟨q0, hq0⟩
    unfold mergeNumeric
    split
    · exact ⟨q0, hq0⟩
    · cases htf : toFiniteNumber v with
      | none => exact ⟨q0, hq0⟩
      | some q =>
          simp only [hq0]
          exact ⟨q0 + q, by simp [Obj.get_set]⟩
  · rw [mergeNumeric_get_ne o k t v hkt]
    exact h

theorem mergeEntryStep_get_eq (o : Obj) (kv : String × JVal) (t : String)
    (hcond : kv.1 = t → (isArr kv.2 = true ∨ toFiniteNumber kv.2 = none)) :
    Obj.get (mergeEntryStep o kv) t = Obj.get o t := by
  obtain ⟨k, v⟩ := kv
  by_cases hk : k = t
  · rcases hcond hk with harr | htf
    · cases v with
      | arr xs => rfl
      | num n => exact absurd harr (by simp [isArr])
      | str s => exact absurd harr (by simp [isArr])
      | bool b => exact absurd harr (by simp [isArr])
      | null => exact absurd harr (by simp [isArr])
      | undef => exact absurd harr (by simp [isArr])
      | obj fs => exact absurd harr (by simp [isArr])
    · cases v with
      | arr xs => rfl
      | num n =>
          exact congrArg (fun ob => Obj.get ob t) (mergeNumeric_skip o k (.num n) htf)
      | str s =>
          exact congrArg (fun ob => Obj.get ob t) (mergeNumeric_skip o k (.str s) htf)
      | bool b =>
          exact congrArg (fun ob => Obj.get ob t) (mergeNumeric_skip o k (.bool b) htf)
      | null =>
          exact congrArg (fun ob => Obj.get ob t) (mergeNumeric_skip o k .null htf)
      | undef =>
          exact congrArg (fun ob => Obj.get ob t) (mergeNumeric_skip o k .undef htf)
      | obj fs =>
          exact congrArg (fun ob => Obj.get ob t) (mergeNumeric_skip o k (.obj fs) htf)
  · cases v with
    | arr xs => rfl
    | num n => exact mergeNumeric_get_ne o k t (.num n) hk
    | str s => exact mergeNumeric_get_ne o k t (.str s) hk
    | bool b => exact mergeNumeric_get_ne o k t (.bool b) hk
    | null => exact mergeNumeric_get_ne o k t .null hk
    | undef => exact mergeNumeric_get_ne o k t .undef hk
    | obj fs => exact mergeNumeric_get_ne o k t (.obj fs) hk

theorem flattenStep_get_eq (pre : String) (o : Obj) (entry : JVal)
    (t : String) (hpre : pre ≠ "")
    (hcl : stringsClash (pre ++ "_") t = true) :
    Obj.get (flattenStep pre o entry) t = Obj.get o t := by
  have hkey : ∀ s : String, pre ++ "_" ++ s ≠ t := by
    intro s
    rw [strAppend_assoc pre "_" s, ← strAppend_assoc pre "_" s]
    exact append_ne_single (pre ++ "_") t s hcl
  cases entry with
  | obj fs =>
      simp only [flattenStep]
      split
      · rfl
      · split
        · rfl
        · split
          · rfl
          · exact mergeNumeric_get_ne _ _ _ _ (hkey _)
  | arr xs =>
      simp only [flattenStep]
      split
      · rfl
      · split
        · rfl
        · split
          · rfl
          · exact mergeNumeric_get_ne _ _ _ _ (hkey _)
  | num n => rfl
  | str s => rfl
  | bool b => rfl
  | null => rfl
  | undef => rfl

theorem flattenMetricArray_get_eq (o : Obj) (source : JVal) (pre t : String)
    (hpre : pre ≠ "") (hcl : stringsClash (pre ++ "_") t = true) :
    Obj.get (flattenMetricArray o source pre) t = Obj.get o t := by
  cases source with
  | arr xs =>
      exact foldl_fix (fun b => Obj.get b t) (flattenStep pre) xs
        (fun b a _ => flattenStep_get_eq pre b a t hpre hcl) o
  | num n => rfl
  | str s => rfl
  | bool b => rfl
  | null => rfl
  | undef => rfl
  | obj fs => rfl

/-- When no entry of the source row can write key `t` (its binding of
`t`, if any, is array-valued or not numeric-coercible) and `t` cannot be
a generated array-source key, `normalizeMainRow` leaves the seed's
binding of `t` unchanged. -/
theorem normalizeMainRow_get_untouched (row : Obj) (t : String)
    (hrow : ∀ p ∈ row, p.1 = t → (isArr p.2 = true ∨ toFiniteNumber p.2 = none))
    (hcl : ∀ sp ∈ arraySources, sp.2 ≠ "" ∧ stringsClash (sp.2 ++ "_") t = true) :
    Obj.get (normalizeMainRow row) t = Obj.get (normalizedSeed row) t := by
  unfold normalizeMainRow
  have h2 :
      Obj.get
        (arraySources.foldl
          (fun o sp => flattenMetricArray o (row.getJ sp.1) sp.2)
          (row.foldl mergeEntryStep (normalizedSeed row))) t
        = Obj.get (row.foldl mergeEntryStep (normalizedSeed row)) t :=
    foldl_fix (fun b => Obj.get b t) _ arraySources
      (fun b sp hsp =>
        flattenMetricArray_get_eq b (row.getJ sp.1) sp.2 t
          (hcl sp hsp).1 (hcl sp hsp).2) _
  have h1 :
      Obj.get (row.foldl mergeEntryStep (normalizedSeed row)) t
        = Obj.get (normalizedSeed row) t :=
    foldl_fix (fun b => Obj.get b t) mergeEntryStep row
      (fun b p hp => mergeEntryStep_get_eq b p t (hrow p hp)) _
  rw [h2, h1]

theorem flattenStep_finiteAt (pre : String) (o : Obj) (entry : JVal)
    (t : String) (h : ∃ q : ℚ, Obj.get o t = some (.num (.val q))) :
    ∃ q : ℚ, Obj.get (flattenStep pre o entry) t = some (.num (.val q)) := by
  cases entry with
  | obj fs =>
      simp only [flattenStep]
      split
      · exact h
      · split
        · exact h
        · split
          · exact h
          · exact mergeNumeric_finiteAt _ _ _ _ h
  | arr xs =>
      simp only [flattenStep]
      split
      · exact h
      · split
        · exact h
        · split
          · exact h
          · exact mergeNumeric_finiteAt _ _ _ _ h
  | num n => exact h
  | str s => exact h
  | bool b => exact h
  | null => exact h
  | undef => exact h

theorem flattenMetricArray_finiteAt (o : Obj) (source : JVal) (pre t : String)
    (h : ∃ q : ℚ, Obj.get o t = some (.num (.val q))) :
    ∃ q : ℚ, Obj.get (flattenMetricArray o source pre) t = some (.num (.val q)) := by
  cases source with
  | arr xs =>
      exact foldl_preserves
        (fun b => ∃ q : ℚ, Obj.get b t = some (.num (.val q)))
        (flattenStep pre)
        (fun b a hb => flattenStep_finiteAt pre b a t hb) xs o h
  | num n => exact h
  | str s => exact h
  | bool b => exact h
  | null => exact h
  | undef => exact h
  | obj fs => exact h

theorem mergeEntryStep_finiteAt (o : Obj) (kv : String × JVal) (t : String)
    (h : ∃ q : ℚ, Obj.get o t = some (.num (.val q))) :
    ∃ q : ℚ, Obj.get (mergeEntryStep o kv) t = some (.num (.val q)) := by
  obtain ⟨k, v⟩ := kv
  cases v with
  | arr xs => exact h
  | num n => exact mergeNumeric_finiteAt o k t (.num n) h
  | str s => exact mergeNumeric_finiteAt o k t (.str s) h
  | bool b => exact mergeNumeric_finiteAt o k t (.bool b) h
  | null => exact mergeNumeric_finiteAt o k t .null h
  | undef => exact mergeNumeric_finiteAt o k t .undef h
  | obj fs => exact mergeNumeric_finiteAt o k t (.obj fs) h

end Client
/-! ## Claim theorems -/

/-- C3: in `normalizeMainRow`'s open-field merge, for every key matching
the safe-identifier pattern with a numeric-coercible value, a currently
held finite number is summed with the incoming value, and otherwise (key
absent, or held value not a finite number) the incoming value is written,
last writer winning. -/
theorem mergeNumeric_sums_or_overwrites (o : Obj) (k : String) (v : JVal)
    (q : ℚ) (hk : Client.isSafeMetricKey k = true)
    (hv : Client.toFiniteNumber v = some q) :
    (∀ q₀ : ℚ, Obj.get o k = some (.num (.val q₀)) →
        Obj.get (Client.mergeNumeric o k v) k = some (.num (.val (q₀ + q)))) ∧
    ((¬ ∃ q₀ : ℚ, Obj.get o k = some (.num (.val q₀))) →
        Obj.get (Client.mergeNumeric o k v) k = some (.num (.val q))) := by
  constructor
  · intro q₀ hq₀
    simp [Client.mergeNumeric, hk, hv, hq₀, Obj.get_set_self]
  · intro hno
    cases hg : Obj.get o k with
    | none => simp [Client.mergeNumeric, hk, hv, hg, Obj.get_set_self]
    | some w =>
        cases w with
        | num n =>
            cases n with
            | val q₀ => exact absurd ⟨q₀, hg⟩ hno
            | nan => simp [Client.mergeNumeric, hk, hv, hg, Obj.get_set_self]
            | inf => simp [Client.mergeNumeric, hk, hv, hg, Obj.get_set_self]
            | ninf => simp [Client.mergeNumeric, hk, hv, hg, Obj.get_set_self]
        | str s => simp [Client.mergeNumeric, hk, hv, hg, Obj.get_set_self]
        | bool b => simp [Client.mergeNumeric, hk, hv, hg, Obj.get_set_self]
        | null => simp [Client.mergeNumeric, hk, hv, hg, Obj.get_set_self]
        | undef => simp [Client.mergeNumeric, hk, hv, hg, Obj.get_set_self]
        | arr xs => simp [Client.mergeNumeric, hk, hv, hg, Obj.get_set_self]
        | obj fs => simp [Client.mergeNumeric, hk, hv, hg, Obj.get_set_self]

/-- Witness for C3: a key holding 2 merged with the string "3" becomes 5. -/
theorem mergeNumeric_sums_or_overwrites_witness :
    Obj.get
      (Client.mergeNumeric [("reach", JVal.num (JNum.val 2))] "reach"
        (.str "3"))
      "reach" = some (.num (.val (2 + 3))) :=
  (mergeNumeric_sums_or_overwrites [("reach", JVal.num (JNum.val 2))]
    "reach" (.str "3") 3 (by decide) (by with_unfolding_all decide)).1 2
    (by with_unfolding_all rfl)

/-- C10: every core field (`impressions`, `clicks`, `spend`, `results`,
`value`, `ctr`, `cpm`, `cpc`, `cost_per_result`, `roas`) of a row
produced by `normalizeMainRow` holds a finite number, whatever the input
row. -/
theorem normalizeMainRow_core_finite (row : Obj) (k : String)
    (hk : k ∈ ["impressions", "clicks", "spend", "results", "value", "ctr",
               "cpm", "cpc", "cost_per_result", "roas"]) :
    ∃ q : ℚ, Obj.get (Client.normalizeMainRow row) k = some (.num (.val q)) := by
  have hseed :
      ∃ q : ℚ, Obj.get (Client.normalizedSeed row) k = some (.num (.val q)) := by
    fin_cases hk <;> exact ⟨_, rfl⟩
  unfold Client.normalizeMainRow
  exact foldl_preserves
    (fun b => ∃ q : ℚ, Obj.get b k = some (.num (.val q)))
    _
    (fun b sp hb =>
      Client.flattenMetricArray_finiteAt b (Obj.getJ row sp.1) sp.2 k hb)
    Client.arraySources _
    (foldl_preserves
      (fun b => ∃ q : ℚ, Obj.get b k = some (.num (.val q)))
      Client.mergeEntryStep
      (fun b kv hb => Client.mergeEntryStep_finiteAt b kv k hb) row _ hseed)

/-- Witness for C10 at the empty row and the `ctr` field. -/
theorem normalizeMainRow_core_finite_witness :
    ∃ q : ℚ, Obj.get (Client.normalizeMainRow []) "ctr" = some (.num (.val q)) :=
  normalizeMainRow_core_finite [] "ctr" (by decide)

/-- C5 (counterexample): a FlatRow with `impressions = 0` that itself
carries a numeric `ctr` field yields a normalized `ctr` of 7, not 0 — the
open-field merge sums the echoed source `ctr` into the derived one, so
the claim's universal "ctr is 0 whenever impressions is 0" fails. -/
theorem normalizeMainRow_ctr_not_zero_on_echoed_ctr :
    Client.safeNumber (Obj.getJ c5Row "impressions") = 0 ∧
    Obj.get (Client.normalizeMainRow c5Row) "ctr" = some (.num (.val 7)) ∧
    (7 : ℚ) ≠ 0 :=
  ⟨by with_unfolding_all rfl, by with_unfolding_all rfl, by norm_num⟩

/-- C5 (amended): for a FlatRow that does not itself carry
numeric-coercible `ctr`/`cpm`/`cpc`/`cost_per_result`/`result_rate`
fields, the normalizer's `ctr` and `cpm` are 0 when the coerced
`impressions` is 0, `cpc` is 0 when the coerced `clicks` (with its
`outbound_clicks_total` fallback) is 0, `cost_per_result` is 0 when the
coerced `results` (with its `actions_purchase` fallback) is 0, and
`result_rate` is not produced at all. -/
theorem normalizeMainRow_zero_denominators (row : Obj)
    (hrow : ∀ p ∈ row,
      p.1 ∈ ["ctr", "cpm", "cpc", "cost_per_result", "result_rate"] →
      (isArr p.2 = true ∨ Client.toFiniteNumber p.2 = none)) :
    (Client.safeNumber (Obj.getJ row "impressions") = 0 →
        Obj.get (Client.normalizeMainRow row) "ctr" = some (.num (.val 0)) ∧
        Obj.get (Client.normalizeMainRow row) "cpm" = some (.num (.val 0))) ∧
    (Client.safeNumber
        ((Obj.getJ row "clicks").nullish (Obj.getJ row "outbound_clicks_total")) = 0 →
        Obj.get (Client.normalizeMainRow row) "cpc" = some (.num (.val 0))) ∧
    (Client.safeNumber
        ((Obj.getJ row "results").nullish (Obj.getJ row "actions_purchase")) = 0 →
        Obj.get (Client.normalizeMainRow row) "cost_per_result" = some (.num (.val 0))) ∧
    Obj.get (Client.normalizeMainRow row) "result_rate" = none := by
  have hu : ∀ t ∈ (["ctr", "cpm", "cpc", "cost_per_result", "result_rate"] : List String),
      Obj.get (Client.normalizeMainRow row) t = Obj.get (Client.normalizedSeed row) t := by
    intro t ht
    refine Client.normalizeMainRow_get_untouched row t ?_ ?_
    · intro p hp hpt
      exact hrow p hp (hpt ▸ ht)
    · fin_cases ht <;> decide
  refine ⟨fun himp => ⟨?_, ?_⟩, fun hclk => ?_, fun hres => ?_, ?_⟩
  · rw [hu "ctr" (by simp)]
    rw [show Obj.get (Client.normalizedSeed row) "ctr"
        = some (.num (.val
            (if 0 < Client.safeNumber (Obj.getJ row "impressions")
             then Client.safeNumber
                    ((Obj.getJ row "clicks").nullish (Obj.getJ row "outbound_clicks_total"))
                  / Client.safeNumber (Obj.getJ row "impressions")
             else 0))) from rfl]
    rw [himp]
    norm_num
  · rw [hu "cpm" (by simp)]
    rw [show Obj.get (Client.normalizedSeed row) "cpm"
        = some (.num (.val
            (if 0 < Client.safeNumber (Obj.getJ row "impressions")
             then Client.safeNumber (Obj.getJ row "spend")
                  / Client.safeNumber (Obj.getJ row "impressions") * 1000
             else 0))) from rfl]
    rw [himp]
    norm_num
  · rw [hu "cpc" (by simp)]
    rw [show Obj.get (Client.normalizedSeed row) "cpc"
        = some (.num (.val
            (if 0 < Client.safeNumber
                ((Obj.getJ row "clicks").nullish (Obj.getJ row "outbound_clicks_total"))
             then Client.safeNumber (Obj.getJ row "spend")
                  / Client.safeNumber
                      ((Obj.getJ row "clicks").nullish (Obj.getJ row "outbound_clicks_total"))
             else 0))) from rfl]
    rw [hclk]
    norm_num
  · rw [hu "cost_per_result" (by simp)]
    rw [show Obj.get (Client.normalizedSeed row) "cost_per_result"
        = some (.num (.val
            (if 0 < Client.safeNumber
                ((Obj.getJ row "results").nullish (Obj.getJ row "actions_purchase"))
             then Client.safeNumber (Obj.getJ row "spend")
                  / Client.safeNumber
                      ((Obj.getJ row "results").nullish (Obj.getJ row "actions_purchase"))
             else 0))) from rfl]
    rw [hres]
    norm_num
  · rw [hu "result_rate" (by simp)]
    rfl

/-- Witness for C5 (amended) on a concrete zero-impressions row. -/
theorem normalizeMainRow_zero_denominators_witness :
    Obj.get (Client.normalizeMainRow c5WitnessRow) "ctr" = some (.num (.val 0)) ∧
    Obj.get (Client.normalizeMainRow c5WitnessRow) "cost_per_result" = some (.num (.val 0)) ∧
    Obj.get (Client.normalizeMainRow c5WitnessRow) "result_rate" = none :=
  ⟨((normalizeMainRow_zero_denominators c5WitnessRow
      (by intro p hp hmem; simp only [c5WitnessRow, List.mem_cons, List.not_mem_nil, or_false] at hp; rcases hp with rfl | rfl | rfl | rfl <;> simp at hmem)).1
      (by with_unfolding_all rfl)).1,
   (normalizeMainRow_zero_denominators c5WitnessRow
      (by intro p hp hmem; simp only [c5WitnessRow, List.mem_cons, List.not_mem_nil, or_false] at hp; rcases hp with rfl | rfl | rfl | rfl <;> simp at hmem)).2.2.1
      (by with_unfolding_all rfl),
   (normalizeMainRow_zero_denominators c5WitnessRow
      (by intro p hp hmem; simp only [c5WitnessRow, List.mem_cons, List.not_mem_nil, or_false] at hp; rcases hp with rfl | rfl | rfl | rfl <;> simp at hmem)).2.2.2⟩

/-- C7 (counterexample): a row carrying only a numeric `roas` field of
its own has no positive `purchase_roas_purchase`, no positive spend and
no positive `action_values_purchase`, so the claimed precedence demands
`roas = 0`; but the open-field merge sums the echoed source `roas` into
the derived one, yielding 5. -/
theorem normalizeMainRow_roas_not_precedence_on_echoed_roas :
    Client.safeNumber (Obj.getJ c7Row "purchase_roas_purchase") = 0 ∧
    Client.safeNumber (Obj.getJ c7Row "spend") = 0 ∧
    Client.safeNumber (Obj.getJ c7Row "action_values_purchase") = 0 ∧
    Obj.get (Client.normalizeMainRow c7Row) "roas" = some (.num (.val 5)) ∧
    (5 : ℚ) ≠ 0 :=
  ⟨by with_unfolding_all rfl, by with_unfolding_all rfl,
   by with_unfolding_all rfl, by with_unfolding_all rfl, by norm_num⟩

/-- C7 (amended): for a row that does not itself carry a
numeric-coercible `roas` field, the normalizer's `roas` follows the
claimed precedence: the coerced `purchase_roas_purchase` when positive;
else `action_values_purchase / spend` when both are positive; else 0. -/
theorem normalizeMainRow_roas_precedence (row : Obj)
    (hrow : ∀ p ∈ row, p.1 = "roas" →
      (isArr p.2 = true ∨ Client.toFiniteNumber p.2 = none)) :
    (0 < Client.safeNumber (Obj.getJ row "purchase_roas_purchase") →
        Obj.get (Client.normalizeMainRow row) "roas"
          = some (.num (.val (Client.safeNumber (Obj.getJ row "purchase_roas_purchase"))))) ∧
    (¬ 0 < Client.safeNumber (Obj.getJ row "purchase_roas_purchase") →
      0 < Client.safeNumber (Obj.getJ row "spend") →
      0 < Client.safeNumber (Obj.getJ row "action_values_purchase") →
        Obj.get (Client.normalizeMainRow row) "roas"
          = some (.num (.val (Client.safeNumber (Obj.getJ row "action_values_purchase")
              / Client.safeNumber (Obj.getJ row "spend"))))) ∧
    (¬ 0 < Client.safeNumber (Obj.getJ row "purchase_roas_purchase") →
      ¬ (0 < Client.safeNumber (Obj.getJ row "spend")
          ∧ 0 < Client.safeNumber (Obj.getJ row "action_values_purchase")) →
        Obj.get (Client.normalizeMainRow row) "roas" = some (.num (.val 0))) := by
  have hu : Obj.get (Client.normalizeMainRow row) "roas"
      = Obj.get (Client.normalizedSeed row) "roas" := by
    refine Client.normalizeMainRow_get_untouched row "roas" ?_ ?_
    · intro p hp hpt
      exact hrow p hp hpt
    · decide
  have hseed : Obj.get (Client.normalizedSeed row) "roas"
      = some (.num (.val
          (if 0 < Client.safeNumber (Obj.getJ row "purchase_roas_purchase")
           then Client.safeNumber (Obj.getJ row "purchase_roas_purchase")
           else if 0 < Client.safeNumber (Obj.getJ row "spend")
                    ∧ 0 < Client.safeNumber (Obj.getJ row "action_values_purchase")
                then Client.safeNumber (Obj.getJ row "action_values_purchase")
                      / Client.safeNumber (Obj.getJ row "spend")
                else 0))) := rfl
  refine ⟨fun h1 => ?_, fun h1 h2 h3 => ?_, fun h1 h2 => ?_⟩
  · rw [hu, hseed, if_pos h1]
  · rw [hu, hseed, if_neg h1, if_pos ⟨h2, h3⟩]
  · rw [hu, hseed, if_neg h1, if_neg h2]

/-- Witness for C7 (amended): an upstream-computed ROAS of 2.5 wins over
the derivable 30/10. -/
theorem normalizeMainRow_roas_precedence_witness :
    Obj.get (Client.normalizeMainRow c7WitnessRow) "roas"
      = some (.num (.val (Client.safeNumber
          (Obj.getJ c7WitnessRow "purchase_roas_purchase")))) ∧
    Client.safeNumber (Obj.getJ c7WitnessRow "purchase_roas_purchase") = 5 / 2 :=
  ⟨(normalizeMainRow_roas_precedence c7WitnessRow
      (by intro p hp hmem; simp only [c7WitnessRow, List.mem_cons, List.not_mem_nil, or_false] at hp; rcases hp with rfl | rfl | rfl <;> simp at hmem)).1
      (by with_unfolding_all decide),
   by with_unfolding_all rfl⟩

theorem get_ite_set (P : Prop) [Decidable P] (e : Obj) (k : String)
    (v : JVal) (t : String) (h : k ≠ t) :
    Obj.get (if P then Obj.set e k v else e) t = Obj.get e t := by
  split
  · exact Obj.get_set_ne e k t v h
  · rfl

namespace Client
theorem aggEntriesStep_get_skip (acc : Obj) (kv : String × JVal)
    (t : String) (ht : t ∈ skipKeys) :
    Obj.get (aggEntriesStep acc kv) t = Obj.get acc t := by
  unfold aggEntriesStep
  split
  · rfl
  · next hkv =>
      split
      · exact Obj.get_set_ne _ _ _ _ (fun heq => hkv (heq ▸ ht))
      · rfl

theorem aggEntriesStep_get_ne (acc : Obj) (kv : String × JVal)
    (t : String) (h : kv.1 ≠ t) :
    Obj.get (aggEntriesStep acc kv) t = Obj.get acc t := by
  unfold aggEntriesStep
  split
  · rfl
  · split
    · exact Obj.get_set_ne _ _ _ _ h
    · rfl

theorem foldl_aggEntries_skip (l : List (String × JVal)) (t : String)
    (ht : t ∈ skipKeys) (b : Obj) :
    Obj.get (l.foldl aggEntriesStep b) t = Obj.get b t :=
  foldl_fix (fun o => Obj.get o t) aggEntriesStep l
    (fun b' kv _ => aggEntriesStep_get_skip b' kv t ht) b

theorem foldl_aggEntries_ne (l : List (String × JVal)) (t : String)
    (h : ∀ kv ∈ l, kv.1 ≠ t) (b : Obj) :
    Obj.get (l.foldl aggEntriesStep b) t = Obj.get b t :=
  foldl_fix (fun o => Obj.get o t) aggEntriesStep l
    (fun b' kv hkv => aggEntriesStep_get_ne b' kv t (h kv hkv)) b

theorem foldl_aggEntries_extra :
    ∀ (l : List (String × JVal)) (acc : Obj) (t : String) (a b : ℚ),
      (l.map Prod.fst).Nodup → Obj.get l t = some (.num (.val b)) →
      t ∉ skipKeys → Obj.get acc t = some (.num (.val a)) →
      Obj.get (l.foldl aggEntriesStep acc) t = some (.num (.val (a + b)))
  | [], _, t, _, _, _, hget, _, _ => by simp [Obj.get] at hget
  | (k, v) :: rest, acc, t, a, b, hnd, hget, hskip, hacc => by
      simp only [List.map_cons, List.nodup_cons] at hnd
      by_cases hk : k = t
      · subst hk
        have hv : v = .num (.val b) := by
          simp only [Obj.get, if_pos rfl] at hget
          exact Option.some.inj hget
        subst hv
        have hstep : Obj.get (aggEntriesStep acc (k, .num (.val b))) k
            = some (.num (.val (a + b))) := by
          unfold aggEntriesStep
          rw [if_neg hskip]
          simp only
          rw [Obj.get_set_self]
          have hgj : Obj.getJ acc k = .num (.val a) := by
            simp [Obj.getJ, hacc]
          rw [hgj]
          by_cases hz : a = 0
          · subst hz
            simp [JVal.orElse, JVal.truthy, jsAdd, jsNumber, JNum.add]
          · simp [JVal.orElse, JVal.truthy, hz, jsAdd, jsNumber, JNum.add]
        have hrest : ∀ kv ∈ rest, kv.1 ≠ k := by
          intro kv hkv heq
          exact hnd.1 (heq ▸ List.mem_map_of_mem Prod.fst hkv)
        calc Obj.get ((((k, JVal.num (JNum.val b)) :: rest).foldl aggEntriesStep acc)) k
            = Obj.get (rest.foldl aggEntriesStep (aggEntriesStep acc (k, .num (.val b)))) k := rfl
          _ = Obj.get (aggEntriesStep acc (k, .num (.val b))) k :=
              foldl_aggEntries_ne rest k hrest _
          _ = some (.num (.val (a + b))) := hstep
      · have hget' : Obj.get rest t = some (.num (.val b)) := by
          simpa [Obj.get, hk] using hget
        have hacc' : Obj.get (aggEntriesStep acc (k, v)) t = some (.num (.val a)) := by
          rw [aggEntriesStep_get_ne acc (k, v) t hk]
          exact hacc
        exact foldl_aggEntries_extra rest (aggEntriesStep acc (k, v)) t a b
          hnd.2 hget' hskip hacc'

/-- The grouping key of a row whose `campaign_id` is a non-empty
string. -/
theorem aggKey_of_campaignId (r : Obj) (c : String)
    (h : Obj.getJ r "campaign_id" = .str c) (hc : c ≠ "") :
    aggKey r = .str c := by
  unfold aggKey
  rw [h]
  simp [JVal.orElse, JVal.truthy, hc]

end Client
/-- C4 (amended): aggregating two NormalizedRows carrying the same
non-empty `campaign_id` produces one group whose `impressions`, `clicks`,
`spend`, `results`, `value` — and every other finite-number field outside
the identity/date/ratio skip set — are the sums of the rows' fields, with
`ctr`, `cpm`, `cpc`, `cost_per_result` recomputed from the summed
totals. -/
theorem aggregateByCampaign_pair (r1 r2 : Obj) (c : String) (hc : c ≠ "")
    (h1 : Obj.getJ r1 "campaign_id" = .str c)
    (h2 : Obj.getJ r2 "campaign_id" = .str c)
    (imp1 clk1 sp1 res1 vl1 imp2 clk2 sp2 res2 vl2 : ℚ)
    (himp1 : Obj.get r1 "impressions" = some (.num (.val imp1)))
    (hclk1 : Obj.get r1 "clicks" = some (.num (.val clk1)))
    (hsp1 : Obj.get r1 "spend" = some (.num (.val sp1)))
    (hres1 : Obj.get r1 "results" = some (.num (.val res1)))
    (hval1 : Obj.get r1 "value" = some (.num (.val vl1)))
    (himp2 : Obj.get r2 "impressions" = some (.num (.val imp2)))
    (hclk2 : Obj.get r2 "clicks" = some (.num (.val clk2)))
    (hsp2 : Obj.get r2 "spend" = some (.num (.val sp2)))
    (hres2 : Obj.get r2 "results" = some (.num (.val res2)))
    (hval2 : Obj.get r2 "value" = some (.num (.val vl2))) :
    ∃ out : Obj, Client.aggregateByCampaign [r1, r2] = [out] ∧
      Obj.get out "impressions" = some (.num (.val (imp1 + imp2))) ∧
      Obj.get out "clicks" = some (.num (.val (clk1 + clk2))) ∧
      Obj.get out "spend" = some (.num (.val (sp1 + sp2))) ∧
      Obj.get out "results" = some (.num (.val (res1 + res2))) ∧
      Obj.get out "value" = some (.num (.val (vl1 + vl2))) ∧
      Obj.get out "ctr" = some (.num (.val
        (if 0 < imp1 + imp2 then (clk1 + clk2) / (imp1 + imp2) else 0))) ∧
      Obj.get out "cpm" = some (.num (.val
        (if 0 < imp1 + imp2 then (sp1 + sp2) / (imp1 + imp2) * 1000 else 0))) ∧
      Obj.get out "cpc" = some (.num (.val
        (if 0 < clk1 + clk2 then (sp1 + sp2) / (clk1 + clk2) else 0))) ∧
      Obj.get out "cost_per_result" = some (.num (.val
        (if 0 < res1 + res2 then (sp1 + sp2) / (res1 + res2) else 0))) ∧
      (∀ (t : String) (a b : ℚ), t ∉ Client.skipKeys →
        (r2.map Prod.fst).Nodup →
        Obj.get r1 t = some (.num (.val a)) →
        Obj.get r2 t = some (.num (.val b)) →
        Obj.get out t = some (.num (.val (a + b)))) := by
  have hkey1 := Client.aggKey_of_campaignId r1 c h1 hc
  have hkey2 := Client.aggKey_of_campaignId r2 c h2 hc
  have hstep1 : Client.aggStep [] r1 = [(JVal.str c, Client.aggInitial r1)] := by
    unfold Client.aggStep
    rw [hkey1]
    simp [JVal.truthy, hc, Client.lookupSvz]
  have hstep2 : Client.aggStep [(JVal.str c, Client.aggInitial r1)] r2
      = [(JVal.str c, Client.aggMerge (Client.aggInitial r1) r2)] := by
    unfold Client.aggStep
    rw [hkey2]
    simp [JVal.truthy, hc, Client.lookupSvz, Client.mergeSvz, Client.svz]
  have hgroups : Client.aggregateByCampaign [r1, r2]
      = [Client.aggFinalize (Client.aggMerge (Client.aggInitial r1) r2)] := by
    unfold Client.aggregateByCampaign
    rw [show ([r1, r2].foldl Client.aggStep [])
        = Client.aggStep (Client.aggStep [] r1) r2 from rfl, hstep1, hstep2]
    rfl
  -- gets on the group seed
  have gi : Obj.get (Client.aggInitial r1) "impressions" = some (.num (.val imp1)) := by
    simp [Client.aggInitial, Obj.get_set, Obj.getJ, himp1]
  have gk : Obj.get (Client.aggInitial r1) "clicks" = some (.num (.val clk1)) := by
    simp [Client.aggInitial, Obj.get_set, Obj.getJ, hclk1]
  have gs : Obj.get (Client.aggInitial r1) "spend" = some (.num (.val sp1)) := by
    simp [Client.aggInitial, Obj.get_set, Obj.getJ, hsp1]
  have gr : Obj.get (Client.aggInitial r1) "results" = some (.num (.val res1)) := by
    simp [Client.aggInitial, Obj.get_set, Obj.getJ, hres1]
  have gv : Obj.get (Client.aggInitial r1) "value" = some (.num (.val vl1)) := by
    by_cases hz : vl1 = 0
    · subst hz
      simp [Client.aggInitial, Obj.get_set, Obj.getJ, hval1, JVal.orElse, JVal.truthy]
    · simp [Client.aggInitial, Obj.get_set, Obj.getJ, hval1, JVal.orElse, JVal.truthy, hz]
  -- gets on the merged group
  have hm_imp : Obj.get (Client.aggMerge (Client.aggInitial r1) r2) "impressions"
      = some (.num (.val (imp1 + imp2))) := by
    simp only [Client.aggMerge]
    rw [get_ite_set _ _ _ _ _ (by decide : ("date_stop" : String) ≠ "impressions"),
        get_ite_set _ _ _ _ _ (by decide : ("date_start" : String) ≠ "impressions"),
        Client.foldl_aggEntries_skip r2 "impressions" (by decide)]
    simp [Obj.get_set, Obj.getJ, gi, himp2, Client.jsAdd, jsNumber, JNum.add]
  have hm_clk : Obj.get (Client.aggMerge (Client.aggInitial r1) r2) "clicks"
      = some (.num (.val (clk1 + clk2))) := by
    simp only [Client.aggMerge]
    rw [get_ite_set _ _ _ _ _ (by decide : ("date_stop" : String) ≠ "clicks"),
        get_ite_set _ _ _ _ _ (by decide : ("date_start" : String) ≠ "clicks"),
        Client.foldl_aggEntries_skip r2 "clicks" (by decide)]
    simp [Obj.get_set, Obj.getJ, gk, hclk2, Client.jsAdd, jsNumber, JNum.add]
  have hm_sp : Obj.get (Client.aggMerge (Client.aggInitial r1) r2) "spend"
      = some (.num (.val (sp1 + sp2))) := by
    simp only [Client.aggMerge]
    rw [get_ite_set _ _ _ _ _ (by decide : ("date_stop" : String) ≠ "spend"),
        get_ite_set _ _ _ _ _ (by decide : ("date_start" : String) ≠ "spend"),
        Client.foldl_aggEntries_skip r2 "spend" (by decide)]
    simp [Obj.get_set, Obj.getJ, gs, hsp2, Client.jsAdd, jsNumber, JNum.add]
  have hm_res : Obj.get (Client.aggMerge (Client.aggInitial r1) r2) "results"
      = some (.num (.val (res1 + res2))) := by
    simp only [Client.aggMerge]
    rw [get_ite_set _ _ _ _ _ (by decide : ("date_stop" : String) ≠ "results"),
        get_ite_set _ _ _ _ _ (by decide : ("date_start" : String) ≠ "results"),
        Client.foldl_aggEntries_skip r2 "results" (by decide)]
    simp [Obj.get_set, Obj.getJ, gr, hres2, Client.jsAdd, jsNumber, JNum.add]
  have hm_val : Obj.get (Client.aggMerge (Client.aggInitial r1) r2) "value"
      = some (.num (.val (vl1 + vl2))) := by
    simp only [Client.aggMerge]
    rw [get_ite_set _ _ _ _ _ (by decide : ("date_stop" : String) ≠ "value"),
        get_ite_set _ _ _ _ _ (by decide : ("date_start" : String) ≠ "value"),
        Client.foldl_aggEntries_skip r2 "value" (by decide)]
    by_cases hz : vl2 = 0
    · subst hz
      simp [Obj.get_set, Obj.getJ, gv, hval2, JVal.orElse, JVal.truthy,
            Client.jsAdd, jsNumber, JNum.add]
    · simp [Obj.get_set, Obj.getJ, gv, hval2, JVal.orElse, JVal.truthy, hz,
            Client.jsAdd, jsNumber, JNum.add]
  have hmj_imp : Obj.getJ (Client.aggMerge (Client.aggInitial r1) r2) "impressions"
      = .num (.val (imp1 + imp2)) := by simp [Obj.getJ, hm_imp]
  have hmj_clk : Obj.getJ (Client.aggMerge (Client.aggInitial r1) r2) "clicks"
      = .num (.val (clk1 + clk2)) := by simp [Obj.getJ, hm_clk]
  have hmj_sp : Obj.getJ (Client.aggMerge (Client.aggInitial r1) r2) "spend"
      = .num (.val (sp1 + sp2)) := by simp [Obj.getJ, hm_sp]
  have hmj_res : Obj.getJ (Client.aggMerge (Client.aggInitial r1) r2) "results"
      = .num (.val (res1 + res2)) := by simp [Obj.getJ, hm_res]
  refine ⟨Client.aggFinalize (Client.aggMerge (Client.aggInitial r1) r2),
    hgroups, ?_, ?_, ?_, ?_, ?_, ?_, ?_, ?_, ?_, ?_⟩
  · simp [Client.aggFinalize, Obj.get_set, hm_imp]
  · simp [Client.aggFinalize, Obj.get_set, hm_clk]
  · simp [Client.aggFinalize, Obj.get_set, hm_sp]
  · simp [Client.aggFinalize, Obj.get_set, hm_res]
  · simp [Client.aggFinalize, Obj.get_set, hm_val]
  · -- ctr
    by_cases hpos : 0 < imp1 + imp2
    · simp [Client.aggFinalize, Obj.get_set, hmj_imp, hmj_clk, jsNumber,
            JNum.gtQ, JNum.div, hpos, ne_of_gt hpos]
    · simp [Client.aggFinalize, Obj.get_set, hmj_imp, hmj_clk, jsNumber,
            JNum.gtQ, JNum.div, hpos]
  · -- cpm
    by_cases hpos : 0 < imp1 + imp2
    · simp [Client.aggFinalize, Obj.get_set, hmj_imp, hmj_sp, jsNumber,
            JNum.gtQ, JNum.div, JNum.mul, hpos, ne_of_gt hpos]
    · simp [Client.aggFinalize, Obj.get_set, hmj_imp, hmj_sp, jsNumber,
            JNum.gtQ, JNum.div, JNum.mul, hpos]
  · -- cpc
    by_cases hpos : 0 < clk1 + clk2
    · simp [Client.aggFinalize, Obj.get_set, hmj_clk, hmj_sp, jsNumber,
            JNum.gtQ, JNum.div, hpos, ne_of_gt hpos]
    · simp [Client.aggFinalize, Obj.get_set, hmj_clk, hmj_sp, jsNumber,
            JNum.gtQ, JNum.div, hpos]
  · -- cost_per_result
    by_cases hpos : 0 < res1 + res2
    · simp [Client.aggFinalize, Obj.get_set, hmj_res, hmj_sp, jsNumber,
            JNum.gtQ, JNum.div, hpos, ne_of_gt hpos]
    · simp [Client.aggFinalize, Obj.get_set, hmj_res, hmj_sp, jsNumber,
            JNum.gtQ, JNum.div, hpos]
  · -- every other finite numeric field
    intro t a b htns hnd hga hgb
    have hne : ∀ k ∈ Client.skipKeys, k ≠ t := fun k hk heq => htns (heq ▸ hk)
    have f1 : Obj.get (Client.aggFinalize (Client.aggMerge (Client.aggInitial r1) r2)) t
        = Obj.get (Client.aggMerge (Client.aggInitial r1) r2) t := by
      simp only [Client.aggFinalize]
      rw [Obj.get_set_ne _ _ _ _ (hne "roas" (by decide)),
          Obj.get_set_ne _ _ _ _ (hne "cost_per_result" (by decide)),
          Obj.get_set_ne _ _ _ _ (hne "cpc" (by decide)),
          Obj.get_set_ne _ _ _ _ (hne "cpm" (by decide)),
          Obj.get_set_ne _ _ _ _ (hne "ctr" (by decide))]
    rw [f1]
    simp only [Client.aggMerge]
    rw [get_ite_set _ _ _ _ _ (hne "date_stop" (by decide)),
        get_ite_set _ _ _ _ _ (hne "date_start" (by decide))]
    refine Client.foldl_aggEntries_extra r2 _ t a b hnd hgb htns ?_
    rw [Obj.get_set_ne _ _ _ _ (hne "value" (by decide)),
        Obj.get_set_ne _ _ _ _ (hne "results" (by decide)),
        Obj.get_set_ne _ _ _ _ (hne "spend" (by decide)),
        Obj.get_set_ne _ _ _ _ (hne "clicks" (by decide)),
        Obj.get_set_ne _ _ _ _ (hne "impressions" (by decide))]
    simp only [Client.aggInitial]
    rw [Obj.get_set_ne _ _ _ _ (hne "date_stop" (by decide)),
        Obj.get_set_ne _ _ _ _ (hne "date_start" (by decide)),
        Obj.get_set_ne _ _ _ _ (hne "value" (by decide)),
        Obj.get_set_ne _ _ _ _ (hne "results" (by decide)),
        Obj.get_set_ne _ _ _ _ (hne "spend" (by decide)),
        Obj.get_set_ne _ _ _ _ (hne "clicks" (by decide)),
        Obj.get_set_ne _ _ _ _ (hne "impressions" (by decide))]
    exact hga

/-- C4 (counterexample): on the claim's own example (spend [10,20],
clicks [2,3], impressions [100,100]) the aggregated `ctr` EQUALS the
average of the two per-row `ctr` values (0.02 and 0.03 average to 0.025,
which is exactly 5/200, because the impressions are equal) — so the
clause "which is not the average of the two per-row ctr values" is false
at this input. -/
theorem aggregateByCampaign_ctr_equals_average :
    Obj.get c4Row1 "ctr" = some (.num (.val (2 / 100))) ∧
    Obj.get c4Row2 "ctr" = some (.num (.val (3 / 100))) ∧
    (Client.aggregateByCampaign [c4Row1, c4Row2]).map (fun o => Obj.get o "ctr")
      = [some (.num (.val ((2 / 100 + 3 / 100) / 2)))] ∧
    ((2 : ℚ) / 100 + 3 / 100) / 2 = 5 / 200 :=
  ⟨by with_unfolding_all rfl, by with_unfolding_all rfl,
   by with_unfolding_all rfl, by norm_num⟩

/-- Witness for C4 (amended) on the claim's example rows: spend 30 and
ctr 5/200. -/
theorem aggregateByCampaign_pair_witness :
    ∃ out : Obj, Client.aggregateByCampaign [c4Row1, c4Row2] = [out] ∧
      Obj.get out "spend" = some (.num (.val 30)) ∧
      Obj.get out "ctr" = some (.num (.val (5 / 200))) := by
  obtain ⟨out, hout, hi, hk, hs, hr, hv, hctr, _⟩ :=
    aggregateByCampaign_pair c4Row1 c4Row2 "c1" (by decide)
      (by with_unfolding_all rfl) (by with_unfolding_all rfl)
      100 2 10 0 0 100 3 20 0 0
      (by with_unfolding_all rfl) (by with_unfolding_all rfl)
      (by with_unfolding_all rfl) (by with_unfolding_all rfl)
      (by with_unfolding_all rfl) (by with_unfolding_all rfl)
      (by with_unfolding_all rfl) (by with_unfolding_all rfl)
      (by with_unfolding_all rfl) (by with_unfolding_all rfl)
  refine ⟨out, hout, ?_, ?_⟩
  · rw [hs]
    norm_num
  · rw [hctr]
    norm_num

namespace Client
theorem foldl_preserves_mem {β α : Type} (P : β → Prop) (f : β → α → β) :
    ∀ (l : List α), (∀ b a, a ∈ l → P b → P (f b a)) →
      ∀ b, P b → P (l.foldl f b)
  | [], _, _, hb => hb
  | a :: l, hf, b, hb =>
      foldl_preserves_mem P f l
        (fun b' a' ha' => hf b' a' (List.mem_cons_of_mem a ha')) (f b a)
        (hf b a (List.mem_cons_self a l) hb)

theorem setBd_sum_none (totals : List (String × BdStats)) (b : String)
    (s : BdStats) (h : lookupBd totals b = none) :
    ((setBd totals b s).map (fun kv => kv.2.amount)).sum
      = (totals.map (fun kv => kv.2.amount)).sum + s.amount := by
  induction totals with
  | nil => simp [setBd]
  | cons kv rest ih =>
      obtain ⟨k, v⟩ := kv
      by_cases hk : k = b
      · simp [lookupBd, hk] at h
      · simp only [lookupBd, if_neg hk] at h
        simp [setBd, hk, ih h]
        ring

theorem setBd_sum_some (totals : List (String × BdStats)) (b : String)
    (s e : BdStats) (h : lookupBd totals b = some e) :
    ((setBd totals b s).map (fun kv => kv.2.amount)).sum
      = (totals.map (fun kv => kv.2.amount)).sum - e.amount + s.amount := by
  induction totals with
  | nil => simp [lookupBd] at h
  | cons kv rest ih =>
      obtain ⟨k, v⟩ := kv
      by_cases hk : k = b
      · simp only [lookupBd, if_pos hk] at h
        obtain rfl : v = e := Option.some.inj h
        simp [setBd, hk]
        ring
      · simp only [lookupBd, if_neg hk] at h
        simp [setBd, hk, ih h]
        ring

theorem bdStep_sum (key : String) (totals : List (String × BdStats))
    (row : Obj) :
    ((bdStep key totals row).map (fun kv => kv.2.amount)).sum
      = (totals.map (fun kv => kv.2.amount)).sum + rowAmountOf row := by
  simp only [bdStep]
  cases h : lookupBd totals (bdBucket row key) with
  | none =>
      simp only [Option.getD]
      rw [setBd_sum_none totals _ _ h]
      simp [rowAmountOf]
  | some e =>
      simp only [Option.getD]
      rw [setBd_sum_some totals _ _ e h]
      simp [rowAmountOf]
      ring

theorem foldl_bdStep_sum (key : String) :
    ∀ (rows : List Obj) (totals : List (String × BdStats)),
      ((rows.foldl (bdStep key) totals).map (fun kv => kv.2.amount)).sum
        = (totals.map (fun kv => kv.2.amount)).sum
          + (rows.map rowAmountOf).sum
  | [], totals => by simp
  | row :: rest, totals => by
      rw [List.foldl_cons, foldl_bdStep_sum key rest _, bdStep_sum]
      simp
      ring

theorem rowAmount_nonneg (s v r c i : ℚ) (hs : 0 ≤ s) (hv : 0 ≤ v)
    (hr : 0 ≤ r) (hc : 0 ≤ c) (hi : 0 ≤ i) :
    0 ≤ rowAmount s v r c i := by
  simp only [rowAmount]
  split_ifs <;> linarith

theorem ladder_nonneg (a x : ℚ) (ha : 0 ≤ a) (hx : 0 ≤ x) :
    0 ≤ (if a ≤ 0 ∧ 0 < x then x else a) := by
  split_ifs
  · exact hx
  · exact ha

theorem ladder_pos (a x : ℚ) (ha : 0 ≤ a) (h : 0 < a ∨ 0 < x) :
    0 < (if a ≤ 0 ∧ 0 < x then x else a) := by
  split_ifs with hcond
  · exact hcond.2
  · rcases h with h | h
    · exact h
    · push_neg at hcond
      by_cases haz : a ≤ 0
      · exact absurd h (not_lt.mpr (hcond haz))
      · exact not_le.mp haz

theorem rowAmount_pos (s v r c i : ℚ) (hs : 0 ≤ s) (hv : 0 ≤ v)
    (hr : 0 ≤ r) (hc : 0 ≤ c) (hi : 0 ≤ i)
    (hone : 0 < s ∨ 0 < v ∨ 0 < r ∨ 0 < c ∨ 0 < i) :
    0 < rowAmount s v r c i := by
  have n1 := ladder_nonneg s v hs hv
  have n2 := ladder_nonneg _ r n1 hr
  have n3 := ladder_nonneg _ c n2 hc
  simp only [rowAmount]
  apply ladder_pos _ i n3
  rcases hone with h | h | h | h | h
  · exact Or.inl (ladder_pos _ c n2
      (Or.inl (ladder_pos _ r n1 (Or.inl (ladder_pos s v hs (Or.inl h))))))
  · exact Or.inl (ladder_pos _ c n2
      (Or.inl (ladder_pos _ r n1 (Or.inl (ladder_pos s v hs (Or.inr h))))))
  · exact Or.inl (ladder_pos _ c n2 (Or.inl (ladder_pos _ r n1 (Or.inr h))))
  · exact Or.inl (ladder_pos _ c n2 (Or.inr h))
  · exact Or.inr h

theorem sum_pos_of_mem :
    ∀ (l : List ℚ), (∀ x ∈ l, 0 ≤ x) → (∃ x ∈ l, 0 < x) → 0 < l.sum
  | [], _, hx => by simp at hx
  | a :: l, hnn, hx => by
      rcases hx with ⟨x, hxl, hxpos⟩
      rcases List.mem_cons.mp hxl with rfl | hxl'
      · have : 0 ≤ l.sum := List.sum_nonneg (fun y hy => hnn y (List.mem_cons_of_mem _ hy))
        simp only [List.sum_cons]
        linarith
      · have hpos : 0 < l.sum :=
          sum_pos_of_mem l (fun y hy => hnn y (List.mem_cons_of_mem _ hy)) ⟨x, hxl', hxpos⟩
        have : 0 ≤ a := hnn a (List.mem_cons_self _ _)
        simp only [List.sum_cons]
        linarith

theorem bdInsert_perm (x : String × BdStats) :
    ∀ l : List (String × BdStats), (bdInsert x l).Perm (x :: l)
  | [] => List.Perm.refl _
  | y :: ys => by
      unfold bdInsert
      split
      · exact List.Perm.refl _
      · exact ((bdInsert_perm x ys).cons y).trans (List.Perm.swap x y ys)

theorem bdSort_perm_aux :
    ∀ (l acc : List (String × BdStats)),
      (l.foldl (fun acc x => bdInsert x acc) acc).Perm (acc ++ l)
  | [], acc => by simp
  | x :: xs, acc => by
      rw [List.foldl_cons]
      refine (bdSort_perm_aux xs (bdInsert x acc)).trans ?_
      have h1 : (bdInsert x acc ++ xs).Perm ((x :: acc) ++ xs) :=
        (bdInsert_perm x acc).append_right xs
      refine h1.trans ?_
      simpa using List.perm_middle.symm

theorem bdSort_perm (l : List (String × BdStats)) : (bdSort l).Perm l := by
  simpa using bdSort_perm_aux l []

theorem bdInsert_pairwise (x : String × BdStats) :
    ∀ l : List (String × BdStats),
      l.Pairwise (fun a b => b.2.amount ≤ a.2.amount) →
      (bdInsert x l).Pairwise (fun a b => b.2.amount ≤ a.2.amount)
  | [], _ => by simp [bdInsert]
  | y :: ys, h => by
      rcases List.pairwise_cons.mp h with ⟨hy, hys⟩
      unfold bdInsert
      split
      · next hlt =>
          refine List.pairwise_cons.mpr ⟨?_, h⟩
          intro z hz
          rcases List.mem_cons.mp hz with rfl | hz'
          · exact le_of_lt hlt
          · exact le_trans (hy z hz') (le_of_lt hlt)
      · next hge =>
          refine List.pairwise_cons.mpr ⟨?_, bdInsert_pairwise x ys hys⟩
          intro z hz
          rcases List.mem_cons.mp ((bdInsert_perm x ys).mem_iff.mp hz) with rfl | hz'
          · exact le_of_not_lt hge
          · exact hy z hz'

theorem bdSort_pairwise (l : List (String × BdStats)) :
    (bdSort l).Pairwise (fun a b => b.2.amount ≤ a.2.amount) := by
  have aux : ∀ (m acc : List (String × BdStats)),
      acc.Pairwise (fun a b => b.2.amount ≤ a.2.amount) →
      (m.foldl (fun acc x => bdInsert x acc) acc).Pairwise
        (fun a b => b.2.amount ≤ a.2.amount) := by
    intro m
    induction m with
    | nil => intro acc h; simpa using h
    | cons x xs ih =>
        intro acc h
        rw [List.foldl_cons]
        exact ih (bdInsert x acc) (bdInsert_pairwise x acc h)
  simpa [bdSort] using aux l [] (List.Pairwise.nil)

theorem mkEntries_map_amount (g : ℚ) :
    ∀ (i : Nat) (l : List (String × BdStats)),
      (mkEntries g i l).map (fun e => e.amount)
        = l.map (fun kv => kv.2.amount)
  | _, [] => rfl
  | i, (name, stats) :: rest => by
      simp [mkEntries, mkEntries_map_amount g (i + 1) rest]

theorem mkEntries_map_percent (g : ℚ) :
    ∀ (i : Nat) (l : List (String × BdStats)),
      (mkEntries g i l).map (fun e => e.percent)
        = l.map (fun kv => if 0 < g then kv.2.amount / g * 100 else 0)
  | _, [] => rfl
  | i, (name, stats) :: rest => by
      simp [mkEntries, mkEntries_map_percent g (i + 1) rest]

theorem mkEntries_pairwise (g : ℚ) :
    ∀ (i : Nat) (l : List (String × BdStats)),
      l.Pairwise (fun a b => b.2.amount ≤ a.2.amount) →
      (mkEntries g i l).Pairwise (fun a b => b.amount ≤ a.amount)
  | _, [], _ => List.Pairwise.nil
  | i, (name, stats) :: rest, h => by
      rcases List.pairwise_cons.mp h with ⟨hhead, htail⟩
      refine List.pairwise_cons.mpr ⟨?_, mkEntries_pairwise g (i + 1) rest htail⟩
      intro e he
      have hmem : e.amount ∈ (mkEntries g (i + 1) rest).map (fun e => e.amount) :=
        List.mem_map_of_mem _ he
      rw [mkEntries_map_amount] at hmem
      rcases List.mem_map.mp hmem with ⟨kv, hkv, hamt⟩
      show e.amount ≤ stats.amount
      rw [← hamt]
      exact hhead kv hkv

theorem sum_map_div_mul (g : ℚ) :
    ∀ l : List ℚ, (l.map (fun q => q / g * 100)).sum = l.sum / g * 100
  | [] => by simp
  | a :: l => by
      simp [sum_map_div_mul g l]
      ring

theorem map_amount_div_mul (T : ℚ) (l : List (String × BdStats)) :
    l.map (fun kv => kv.2.amount / T * 100)
      = (l.map (fun kv => kv.2.amount)).map (fun q => q / T * 100) := by
  induction l with
  | nil => rfl
  | cons x xs ih => simp [ih]

end Client
/-- C8 (counterexample): over a single row whose only non-zero volume is
a negative spend, `buildDistribution`'s percentages sum to 0, not 100 —
the claim's "whenever any of spend, value, results, clicks or impressions
is nonzero" fails for negative values. -/
theorem buildDistribution_percent_zero_on_negative_spend :
    Client.safeNumber (Obj.getJ c8Row "spend") = -5 ∧
    ((-5 : ℚ) ≠ 0) ∧
    ((Client.buildDistribution [c8Row] "platform").map
        (fun e => e.percent)).sum = 0 :=
  ⟨by with_unfolding_all rfl, by norm_num, by with_unfolding_all rfl⟩

/-- C8 (amended): for every row list whose coerced `spend`, `value`,
`results`, `clicks`, `impressions` are all nonnegative with at least one
positive, `buildDistribution` returns entries sorted descending by
`amount` whose `percent` values sum to exactly 100 (in particular, with
all-zero spend/value/results/clicks and positive impressions, through the
impressions fallback). -/
theorem buildDistribution_sorted_and_sums_to_100 (rows : List Obj)
    (key : String)
    (hnn : ∀ row ∈ rows,
      0 ≤ Client.safeNumber (Obj.getJ row "spend") ∧
      0 ≤ Client.safeNumber (Obj.getJ row "value") ∧
      0 ≤ Client.safeNumber (Obj.getJ row "results") ∧
      0 ≤ Client.safeNumber (Obj.getJ row "clicks") ∧
      0 ≤ Client.safeNumber (Obj.getJ row "impressions"))
    (hpos : ∃ row ∈ rows,
      0 < Client.safeNumber (Obj.getJ row "spend") ∨
      0 < Client.safeNumber (Obj.getJ row "value") ∨
      0 < Client.safeNumber (Obj.getJ row "results") ∨
      0 < Client.safeNumber (Obj.getJ row "clicks") ∨
      0 < Client.safeNumber (Obj.getJ row "impressions")) :
    (Client.buildDistribution rows key).Pairwise
      (fun a b => b.amount ≤ a.amount) ∧
    ((Client.buildDistribution rows key).map (fun e => e.percent)).sum
      = 100 := by
  have hgt : 0 < ((rows.foldl (Client.bdStep key) []).map
      (fun kv => kv.2.amount)).sum := by
    rw [Client.foldl_bdStep_sum key rows []]
    simp only [List.map_nil, List.sum_nil, zero_add]
    apply Client.sum_pos_of_mem
    · intro x hx
      rcases List.mem_map.mp hx with ⟨row, hrow, rfl⟩
      rcases hnn row hrow with ⟨h1, h2, h3, h4, h5⟩
      exact Client.rowAmount_nonneg _ _ _ _ _ h1 h2 h3 h4 h5
    · rcases hpos with ⟨row, hrow, hone⟩
      refine ⟨Client.rowAmountOf row, List.mem_map_of_mem _ hrow, ?_⟩
      rcases hnn row hrow with ⟨h1, h2, h3, h4, h5⟩
      exact Client.rowAmount_pos _ _ _ _ _ h1 h2 h3 h4 h5 hone
  have hne := ne_of_gt hgt
  simp only [Client.buildDistribution]
  rw [if_neg (not_le.mpr hgt)]
  constructor
  · exact Client.mkEntries_pairwise _ 0 _
      (Client.bdSort_pairwise (rows.foldl (Client.bdStep key) []))
  · rw [Client.mkEntries_map_percent]
    simp only [if_pos hgt]
    rw [Client.map_amount_div_mul]
    rw [Client.sum_map_div_mul]
    rw [List.Perm.sum_eq ((Client.bdSort_perm _).map (fun kv => kv.2.amount))]
    rw [div_self hne]
    norm_num

/-- Witness for C8 (amended): two rows with only impressions volume (5
and 15) still yield percentages summing to 100. -/
theorem buildDistribution_sorted_and_sums_to_100_witness :
    ((Client.buildDistribution c8WitnessRows "platform").map
        (fun e => e.percent)).sum = 100 :=
  (buildDistribution_sorted_and_sums_to_100 c8WitnessRows "platform"
    (by
      intro row hr
      simp only [c8WitnessRows, List.mem_cons, List.not_mem_nil, or_false] at hr
      rcases hr with rfl | rfl <;> refine ⟨?_, ?_, ?_, ?_, ?_⟩ <;>
        with_unfolding_all decide)
    ⟨_, List.mem_cons_self _ _,
      Or.inr (Or.inr (Or.inr (Or.inr (by with_unfolding_all decide))))⟩).2

namespace Server
/-- One transport-layer retry of `metaFetch` against an upstream that
keeps answering with the same terminal (non-2xx, non-throttled) response:
because the `metaError` is thrown inside the `try`, the bottom `catch`
retries it like a transport exception while `attempt ≤ 3`. -/
theorem metaFetch_const_step (oracle : Nat → HttpAttempt)
    (status : Nat) (statusText : String) (body : JVal)
    (ho : ∀ i, oracle i = .response status statusText body)
    (h2xx : ¬ (200 ≤ status ∧ status < 300))
    (hterm : ¬ (status = 429 ∨
      ((errOfResponse status statusText body).truthy = true ∧
        (errOfResponse status statusText body).getF "code" == JVal.num (.val 4))))
    (idx attempt : Nat) (hat : attempt ≤ 3) :
    metaFetch oracle idx attempt = metaFetch oracle (idx + 1) (attempt + 1) := by
  conv_lhs => rw [metaFetch]
  have hneg : ¬ ((status = 429 ∨
      ((errOfResponse status statusText body).truthy = true ∧
        ((errOfResponse status statusText body).getF "code"
          == JVal.num (.val 4)) = true)) ∧ attempt ≤ 6) := fun hc => hterm hc.1
  simp only [ho, if_neg h2xx, dif_neg hneg, dif_pos hat]

/-- After the transport retries are exhausted (`attempt = 4`), the same
upstream response makes `metaFetch` raise the `metaError` built from it. -/
theorem metaFetch_const_terminal (oracle : Nat → HttpAttempt)
    (status : Nat) (statusText : String) (body : JVal)
    (ho : ∀ i, oracle i = .response status statusText body)
    (h2xx : ¬ (200 ≤ status ∧ status < 300))
    (hterm : ¬ (status = 429 ∨
      ((errOfResponse status statusText body).truthy = true ∧
        (errOfResponse status statusText body).getF "code" == JVal.num (.val 4))))
    (idx : Nat) :
    metaFetch oracle idx 4
      = (.error (mkMetaError status statusText body), idx + 1) := by
  conv_lhs => rw [metaFetch]
  have hneg : ¬ ((status = 429 ∨
      ((errOfResponse status statusText body).truthy = true ∧
        ((errOfResponse status statusText body).getF "code"
          == JVal.num (.val 4)) = true)) ∧ (4 : Nat) ≤ 6) := fun hc => hterm hc.1
  simp only [ho, if_neg h2xx, dif_neg hneg,
    dif_neg (by norm_num : ¬ (4 : Nat) ≤ 3)]

end Server
/-- C1 (counterexample): against an upstream that always answers HTTP 400
with a code-10 error payload, `metaFetch` issues 4 requests — the
original plus 3 transport-layer retries — before the terminal error
propagates, refuting "raises a terminal error ... without retrying the
request": the `metaError` is thrown inside the `try` block, so the
transport-level `catch` retries HTTP error responses too. -/
theorem metaFetch_retries_http_error_responses :
    (Server.metaFetch c1Oracle 0 1).2 = 4 ∧
    (Server.metaFetch c1Oracle 0 1).2 ≠ 1 ∧
    (Server.metaFetch c1Oracle 0 1).1
      = .error (Server.mkMetaError 400 "Bad Request" c1Payload) := by
  have hterm : ¬ ((400 : Nat) = 429 ∨
      ((Server.errOfResponse 400 "Bad Request" c1Payload).truthy = true ∧
        (Server.errOfResponse 400 "Bad Request" c1Payload).getF "code"
          == JVal.num (.val 4))) := by
    with_unfolding_all decide
  have h : Server.metaFetch c1Oracle 0 1
      = (.error (Server.mkMetaError 400 "Bad Request" c1Payload), 4) := by
    rw [Server.metaFetch_const_step c1Oracle 400 "Bad Request" c1Payload
          (fun _ => rfl) (by norm_num) hterm 0 1 (by norm_num),
        Server.metaFetch_const_step c1Oracle 400 "Bad Request" c1Payload
          (fun _ => rfl) (by norm_num) hterm 1 2 (by norm_num),
        Server.metaFetch_const_step c1Oracle 400 "Bad Request" c1Payload
          (fun _ => rfl) (by norm_num) hterm 2 3 (by norm_num),
        Server.metaFetch_const_terminal c1Oracle 400 "Bad Request" c1Payload
          (fun _ => rfl) (by norm_num) hterm 3]
  refine ⟨by rw [h], by rw [h]; norm_num, by rw [h]⟩

/-- C1 (amended): for every upstream that persistently answers one non-2xx
response that is neither status 429 nor an error payload with code 4,
`metaFetch` does raise a terminal error carrying the upstream status,
message and raw error payload — but only after the transport-level retry
(up to 3 additional attempts) has also been applied to the HTTP error
response, since the `metaError` is thrown inside the `try` block; 4
requests are issued in total. -/
theorem metaFetch_terminal_error_after_transport_retries
    (oracle : Nat → Server.HttpAttempt)
    (status : Nat) (statusText : String) (body : JVal)
    (ho : ∀ i, oracle i = .response status statusText body)
    (h2xx : ¬ (200 ≤ status ∧ status < 300))
    (hterm : ¬ (status = 429 ∨
      ((Server.errOfResponse status statusText body).truthy = true ∧
        (Server.errOfResponse status statusText body).getF "code"
          == JVal.num (.val 4)))) :
    Server.metaFetch oracle 0 1
      = (.error (Server.mkMetaError status statusText body), 4) := by
  rw [Server.metaFetch_const_step oracle status statusText body ho h2xx hterm 0 1
        (by norm_num),
      Server.metaFetch_const_step oracle status statusText body ho h2xx hterm 1 2
        (by norm_num),
      Server.metaFetch_const_step oracle status statusText body ho h2xx hterm 2 3
        (by norm_num),
      Server.metaFetch_const_terminal oracle status statusText body ho h2xx hterm 3]

/-- Witness for C1 (amended) against the constant-400 upstream. -/
theorem metaFetch_terminal_error_after_transport_retries_witness :
    Server.metaFetch c1Oracle 0 1
      = (.error (Server.mkMetaError 400 "Bad Request" c1Payload), 4) :=
  metaFetch_terminal_error_after_transport_retries c1Oracle 400 "Bad Request"
    c1Payload (fun _ => rfl) (by norm_num) (by with_unfolding_all decide)

/-- C2 (code bug): an upstream that persistently rejects the
always-included field `account_id` makes the repair loop run forever:
each round filters `account_id` out of `requestedFields` only, but
`ensureFields` re-adds it to the outgoing field list, so the identical
request is re-issued indefinitely — for every amount of fuel, the loop
has still not produced a response. -/
theorem insights_repair_loop_never_terminates :
    (∀ fuel round : Nat,
      Server.insightsLoop c2Oracle .campaign fuel round ["impressions"] [] = none) ∧
    (∀ fuel : Nat,
      Server.handleInsights c2Oracle .campaign ["impressions"] fuel = none) := by
  have haux : ∀ fuel round : Nat,
      Server.insightsLoop c2Oracle .campaign fuel round ["impressions"]
        ["account_id"] = none := by
    intro fuel
    induction fuel with
    | zero => intro round; rfl
    | succ n ih =>
        intro round
        have hstep : Server.insightsLoop c2Oracle .campaign (n + 1) round
            ["impressions"] ["account_id"]
            = Server.insightsLoop c2Oracle .campaign n (round + 1)
              ["impressions"] ["account_id"] := by
          with_unfolding_all rfl
        rw [hstep]
        exact ih (round + 1)
  have hmain : ∀ fuel round : Nat,
      Server.insightsLoop c2Oracle .campaign fuel round ["impressions"] [] = none := by
    intro fuel round
    cases fuel with
    | zero => rfl
    | succ n =>
        have hstep : Server.insightsLoop c2Oracle .campaign (n + 1) round
            ["impressions"] []
            = Server.insightsLoop c2Oracle .campaign n (round + 1)
              ["impressions"] ["account_id"] := by
          with_unfolding_all rfl
        rw [hstep]
        exact haux n (round + 1)
  exact ⟨hmain, fun fuel => hmain fuel 0⟩

/-- C6: the upstream message
`"(#100) field1, field2 are not valid for fields param"` yields exactly
`["field1", "field2"]` from `extractInvalidInsightFields`; the handler's
repair loop retries without those fields (they are absent from the
retried field list) and reports exactly the accumulated removed names in
`removedFields` on success. -/
theorem insights_field_repair_example :
    Server.extractInvalidInsightFields c6Error = ["field1", "field2"] ∧
    Server.handleInsights c6Oracle .campaign ["impressions", "field1", "field2"] 5
      = some (.ok [] ["field1", "field2"]) ∧
    ("field1" ∉ Server.ensureFields ["impressions"] .campaign ∧
     "field2" ∉ Server.ensureFields ["impressions"] .campaign) :=
  ⟨by with_unfolding_all rfl, by with_unfolding_all rfl, by decide⟩

theorem strAppend_left_cancel (p x y : String) (h : p ++ x = p ++ y) :
    x = y := by
  have hd : p.data ++ x.data = p.data ++ y.data := by
    simpa using congrArg String.data h
  have hxy : x.data = y.data := List.append_cancel_left hd
  exact congrArg String.mk hxy

namespace Server
theorem expandStep_skip (pre : String) (acc : Obj) (b : JVal)
    (h : b.truthy = false ∨ (b.getF "action_type").truthy = false) :
    expandStep pre acc b = acc := by
  unfold expandStep
  rcases h with h | h
  · rw [if_pos (by simp [h])]
  · by_cases hb : b.truthy
    · rw [if_neg (by simp [hb]), if_pos (by simp [h])]
    · rw [if_pos (by simp [hb])]

theorem expandStep_get_other (pre : String) (acc : Obj) (b : JVal)
    (t : String) (h : ∀ s : String, pre ++ "_" ++ s ≠ t) :
    Obj.get (expandStep pre acc b) t = Obj.get acc t := by
  unfold expandStep
  split
  · rfl
  · split
    · rfl
    · exact Obj.get_set_ne _ _ _ _ (h _)

theorem expandFold_get (pre : String) :
    ∀ (xs : List JVal) (a : JVal), a ∈ xs →
      a.truthy = true → (a.getF "action_type").truthy = true →
      (∀ b ∈ xs, b.truthy = true → (b.getF "action_type").truthy = true →
        jsToString (b.getF "action_type") = jsToString (a.getF "action_type") →
        b = a) →
      ∀ out : Obj,
        Obj.get (xs.foldl (expandStep pre) out)
            (pre ++ "_" ++ jsToString (a.getF "action_type"))
          = some (.num (toNumber (a.getF "value")))
  | [], a, ha, _, _, _, _ => absurd ha (List.not_mem_nil a)
  | x :: rest, a, ha, htr, hty, huniq, out => by
      rw [List.foldl_cons]
      by_cases hxa : x = a
      · subst hxa
        have hkeep : ∀ acc : Obj,
            Obj.get acc (pre ++ "_" ++ jsToString (x.getF "action_type"))
              = some (.num (toNumber (x.getF "value"))) →
            Obj.get (rest.foldl (expandStep pre) acc)
                (pre ++ "_" ++ jsToString (x.getF "action_type"))
              = some (.num (toNumber (x.getF "value"))) := by
          intro acc hacc
          refine Client.foldl_preserves_mem
            (fun o => Obj.get o (pre ++ "_" ++ jsToString (x.getF "action_type"))
              = some (.num (toNumber (x.getF "value"))))
            (expandStep pre) rest ?_ acc hacc
          intro o b hb ho
          by_cases hbt : b.truthy
          · by_cases hbty : (b.getF "action_type").truthy
            · by_cases hbs : jsToString (b.getF "action_type")
                  = jsToString (x.getF "action_type")
              · have hba : b = x :=
                  huniq b (List.mem_cons_of_mem x hb) hbt hbty hbs
                subst hba
                unfold expandStep
                rw [if_neg (by simp [hbt]), if_neg (by simp [hbty])]
                rw [Obj.get_set_self]
              · unfold expandStep
                rw [if_neg (by simp [hbt]), if_neg (by simp [hbty])]
                rw [Obj.get_set_ne _ _ _ _
                  (fun heq => hbs (strAppend_left_cancel (pre ++ "_") _ _ heq))]
                exact ho
            · rw [expandStep_skip pre o b (Or.inr (by simpa using hbty))]
              exact ho
          · rw [expandStep_skip pre o b (Or.inl (by simpa using hbt))]
            exact ho
        apply hkeep
        unfold expandStep
        rw [if_neg (by simp [htr]), if_neg (by simp [hty])]
        exact Obj.get_set_self _ _ _
      · have ha' : a ∈ rest := by
          rcases List.mem_cons.mp ha with h | h
          · exact absurd h.symm hxa
          · exact h
        exact expandFold_get pre rest a ha' htr hty
          (fun b hb => huniq b (List.mem_cons_of_mem x hb)) _

theorem setTotal_get_ne (out : Obj) (v : JVal) (name t : String)
    (h : name ≠ t) :
    Obj.get (setTotal out v name) t = Obj.get out t := by
  unfold setTotal
  cases sumValues v with
  | some s => exact Obj.get_set_ne _ _ _ _ h
  | none => rfl

theorem expandActionArray_get_other (out : Obj) (v : JVal) (pre t : String)
    (h : ∀ s : String, pre ++ "_" ++ s ≠ t) :
    Obj.get (expandActionArray out v pre) t = Obj.get out t := by
  unfold expandActionArray
  split
  · exact foldl_fix (fun o => Obj.get o t) (expandStep pre) _
      (fun b a _ => expandStep_get_other pre b a t h) out
  · rfl

end Server
/-- C9 (counterexample): on an `actions` array with two entries that
share `action_type = "purchase"` (values `"4"` then `"5"`), the
flattener stores the LAST entry's coerced value under
`actions_purchase`; the first entry's value (numeric coercion 4) is
overwritten, so "expands each recognized action-array entry ... into a
key holding the numeric coercion of its value" fails for every entry
but the last one of each `action_type`. -/
theorem flattenInsight_duplicate_action_type :
    Obj.get (Server.flattenInsight c9Row) "actions_purchase"
      = some (.num (.val 5)) ∧
    Server.toNumber
        ((JVal.obj [("action_type", .str "purchase"), ("value", .str "4")]).getF
          "value")
      = .val 4 ∧
    JNum.val 5 ≠ JNum.val 4 :=
  ⟨by with_unfolding_all rfl, by with_unfolding_all rfl,
   by with_unfolding_all decide⟩

/-- C9 (amended): `flattenInsight` expands a truthy entry of each
recognized action array (`actions`, `action_values` and
`purchase_roas`) that carries a truthy `action_type` into the key
`{field}_{action_type}` holding the numeric coercion of its `value`
(non-numeric values give `NaN`, still stored), PROVIDED no other stored
entry of the same array renders the same `action_type` string; and an
entry that is falsy, or whose `action_type` is absent or falsy, never
changes the accumulator of any expansion block. -/
theorem flattenInsight_action_array_expansion :
    (∀ (o : Obj) (xs : List JVal) (a : JVal),
      Obj.getJ o "actions" = .arr xs →
      a ∈ xs → a.truthy = true → (a.getF "action_type").truthy = true →
      (∀ b ∈ xs, b.truthy = true → (b.getF "action_type").truthy = true →
        jsToString (b.getF "action_type") = jsToString (a.getF "action_type") →
        b = a) →
      Obj.get (Server.flattenInsight o)
          ("actions" ++ "_" ++ jsToString (a.getF "action_type"))
        = some (.num (Server.toNumber (a.getF "value")))) ∧
    (∀ (o : Obj) (xs : List JVal) (a : JVal),
      Obj.getJ o "action_values" = .arr xs →
      a ∈ xs → a.truthy = true → (a.getF "action_type").truthy = true →
      (∀ b ∈ xs, b.truthy = true → (b.getF "action_type").truthy = true →
        jsToString (b.getF "action_type") = jsToString (a.getF "action_type") →
        b = a) →
      Obj.get (Server.flattenInsight o)
          ("action_values" ++ "_" ++ jsToString (a.getF "action_type"))
        = some (.num (Server.toNumber (a.getF "value")))) ∧
    (∀ (o : Obj) (xs : List JVal) (a : JVal),
      Obj.getJ o "purchase_roas" = .arr xs →
      a ∈ xs → a.truthy = true → (a.getF "action_type").truthy = true →
      (∀ b ∈ xs, b.truthy = true → (b.getF "action_type").truthy = true →
        jsToString (b.getF "action_type") = jsToString (a.getF "action_type") →
        b = a) →
      Obj.get (Server.flattenInsight o)
          ("purchase_roas" ++ "_" ++ jsToString (a.getF "action_type"))
        = some (.num (Server.toNumber (a.getF "value")))) ∧
    (∀ (pre : String) (acc : Obj) (b : JVal),
      b.truthy = false ∨ (b.getF "action_type").truthy = false →
      Server.expandStep pre acc b = acc) := by
  refine ⟨?_, ?_, ?_, fun pre acc b h => Server.expandStep_skip pre acc b h⟩
  · intro o xs a hxs ha htr hty huniq
    simp only [Server.flattenInsight]
    rw [Server.setTotal_get_ne _ _ _ _
      (Ne.symm (append_ne_single ("actions" ++ "_")
        "outbound_clicks_ctr_total" _ (by decide)))]
    rw [Server.setTotal_get_ne _ _ _ _
      (Ne.symm (append_ne_single ("actions" ++ "_")
        "outbound_clicks_total" _ (by decide)))]
    rw [Server.expandActionArray_get_other _ _ _ _
      (fun s => append_ne_of_clash ("purchase_roas" ++ "_")
        ("actions" ++ "_") s _ (by decide))]
    rw [Server.expandActionArray_get_other _ _ _ _
      (fun s => append_ne_of_clash ("action_values" ++ "_")
        ("actions" ++ "_") s _ (by decide))]
    rw [hxs]
    exact Server.expandFold_get "actions" xs a ha htr hty huniq _
  · intro o xs a hxs ha htr hty huniq
    simp only [Server.flattenInsight]
    rw [Server.setTotal_get_ne _ _ _ _
      (Ne.symm (append_ne_single ("action_values" ++ "_")
        "outbound_clicks_ctr_total" _ (by decide)))]
    rw [Server.setTotal_get_ne _ _ _ _
      (Ne.symm (append_ne_single ("action_values" ++ "_")
        "outbound_clicks_total" _ (by decide)))]
    rw [Server.expandActionArray_get_other _ _ _ _
      (fun s => append_ne_of_clash ("purchase_roas" ++ "_")
        ("action_values" ++ "_") s _ (by decide))]
    rw [hxs]
    exact Server.expandFold_get "action_values" xs a ha htr hty huniq _
  · intro o xs a hxs ha htr hty huniq
    simp only [Server.flattenInsight]
    rw [Server.setTotal_get_ne _ _ _ _
      (Ne.symm (append_ne_single ("purchase_roas" ++ "_")
        "outbound_clicks_ctr_total" _ (by decide)))]
    rw [Server.setTotal_get_ne _ _ _ _
      (Ne.symm (append_ne_single ("purchase_roas" ++ "_")
        "outbound_clicks_total" _ (by decide)))]
    rw [hxs]
    exact Server.expandFold_get "purchase_roas" xs a ha htr hty huniq _

/-- Witness for C9 (amended) on the spec's example entry plus a
skipped entry (no `action_type`), a non-numeric value (stored as
`NaN`) and singleton `action_values` / `purchase_roas` arrays:
`actions_purchase = 4` as a number, `actions_lead = NaN`,
`action_values_purchase = 7`, `purchase_roas_purchase = 2`. -/
theorem flattenInsight_action_array_expansion_witness :
    Obj.get (Server.flattenInsight c9WitnessRow) "actions_purchase"
      = some (.num (.val 4)) ∧
    Obj.get (Server.flattenInsight c9WitnessRow) "actions_lead"
      = some (.num .nan) ∧
    Obj.get (Server.flattenInsight c9WitnessRow) "action_values_purchase"
      = some (.num (.val 7)) ∧
    Obj.get (Server.flattenInsight c9WitnessRow) "purchase_roas_purchase"
      = some (.num (.val 2)) ∧
    Server.expandStep "actions" [] (.obj [("value", .str "9")]) = [] := by
  have huniq : ∀ b ∈ [JVal.obj [("action_type", .str "purchase"), ("value", .str "4")],
        .obj [("value", .str "9")],
        .obj [("action_type", .str "lead"), ("value", .str "x")]],
      ∀ (a : JVal), b.truthy = true → (b.getF "action_type").truthy = true →
      jsToString (b.getF "action_type") = jsToString (a.getF "action_type") →
      (jsToString (a.getF "action_type") = "purchase" → b = .obj [("action_type", .str "purchase"), ("value", .str "4")]) ∧
      (jsToString (a.getF "action_type") = "lead" → b = .obj [("action_type", .str "lead"), ("value", .str "x")]) := by
    intro b hb a hbt hbty hbs
    simp only [List.mem_cons, List.not_mem_nil, or_false] at hb
    rcases hb with rfl | rfl | rfl
    · refine ⟨fun _ => rfl, fun hl => ?_⟩
      rw [hl] at hbs
      exact absurd hbs (by decide)
    · exact absurd hbty (by decide)
    · refine ⟨fun hp => ?_, fun _ => rfl⟩
      rw [hp] at hbs
      exact absurd hbs (by decide)
  refine ⟨?_, ?_, ?_, ?_, ?_⟩
  · have h := flattenInsight_action_array_expansion.1 c9WitnessRow
      [.obj [("action_type", .str "purchase"), ("value", .str "4")],
       .obj [("value", .str "9")],
       .obj [("action_type", .str "lead"), ("value", .str "x")]]
      (.obj [("action_type", .str "purchase"), ("value", .str "4")])
      (by with_unfolding_all rfl) (List.mem_cons_self _ _) (by decide)
      (by decide)
      (fun b hb hbt hbty hbs => (huniq b hb _ hbt hbty hbs).1 (by decide))
    have hkey : ("actions" ++ "_" ++ jsToString
        ((JVal.obj [("action_type", .str "purchase"),
          ("value", .str "4")]).getF "action_type")) = "actions_purchase" := by
      with_unfolding_all rfl
    rw [hkey] at h
    rw [h]
    with_unfolding_all rfl
  · have h := flattenInsight_action_array_expansion.1 c9WitnessRow
      [.obj [("action_type", .str "purchase"), ("value", .str "4")],
       .obj [("value", .str "9")],
       .obj [("action_type", .str "lead"), ("value", .str "x")]]
      (.obj [("action_type", .str "lead"), ("value", .str "x")])
      (by with_unfolding_all rfl)
      (by simp) (by decide) (by decide)
      (fun b hb hbt hbty hbs => (huniq b hb _ hbt hbty hbs).2 (by decide))
    have hkey : ("actions" ++ "_" ++ jsToString
        ((JVal.obj [("action_type", .str "lead"),
          ("value", .str "x")]).getF "action_type")) = "actions_lead" := by
      with_unfolding_all rfl
    rw [hkey] at h
    rw [h]
    with_unfolding_all rfl
  · have h := flattenInsight_action_array_expansion.2.1 c9WitnessRow
      [.obj [("action_type", .str "purchase"), ("value", .str "7")]]
      (.obj [("action_type", .str "purchase"), ("value", .str "7")])
      (by with_unfolding_all rfl) (List.mem_cons_self _ _) (by decide)
      (by decide)
      (by
        intro b hb hbt hbty hbs
        simp only [List.mem_cons, List.not_mem_nil, or_false] at hb
        exact hb)
    have hkey : ("action_values" ++ "_" ++ jsToString
        ((JVal.obj [("action_type", .str "purchase"),
          ("value", .str "7")]).getF "action_type"))
        = "action_values_purchase" := by
      with_unfolding_all rfl
    rw [hkey] at h
    rw [h]
    with_unfolding_all rfl
  · have h := flattenInsight_action_array_expansion.2.2.1 c9WitnessRow
      [.obj [("action_type", .str "purchase"), ("value", .str "2")]]
      (.obj [("action_type", .str "purchase"), ("value", .str "2")])
      (by with_unfolding_all rfl) (List.mem_cons_self _ _) (by decide)
      (by decide)
      (by
        intro b hb hbt hbty hbs
        simp only [List.mem_cons, List.not_mem_nil, or_false] at hb
        exact hb)
    have hkey : ("purchase_roas" ++ "_" ++ jsToString
        ((JVal.obj [("action_type", .str "purchase"),
          ("value", .str "2")]).getF "action_type"))
        = "purchase_roas_purchase" := by
      with_unfolding_all rfl
    rw [hkey] at h
    rw [h]
    with_unfolding_all rfl
  · exact flattenInsight_action_array_expansion.2.2.2 "actions" []
      (.obj [("value", .str "9")]) (Or.inr (by decide))

